import Mathlib

/-!
Verification of the BedPak content ingestion and storage subsystem.

This file gives a shallow embedding, in Lean 4, of the parts of the
BedPak code base that the specification talks about:

* `src/storage.ts` — magic-byte validators (`validateMcaddonFile`,
  `validateIconType`), the SVG sanitizer (`sanitizeSvg`), the filesystem
  name sanitizer (`sanitizeForFilesystem`), and the content store
  operations (`saveAddon`, `getLatestAddonFile`, `saveIcon`, `deleteIcon`).
* `src/db_controller.ts` — the catalog operations `createPackage`,
  `updatePackage`, `deletePackage`, `incrementDownloads`,
  `getDailyDownloads` over an explicit database state.
* `src/index.ts` — the `POST /packages` ingestion orchestration with its
  compensating rollback, modelled as a pure state-passing function.

Byte buffers are modelled as `List Nat` (each entry a byte value), strings
as Lean `String`/`List Char`.  The textual operations assume ASCII content
(the JS originals operate on UTF-16 strings; on ASCII data the two agree
codepoint for codepoint).  Clock reads (`Date.now()`, "today") are passed
in as explicit parameters.  Fallible I/O is modelled by explicit success
flags / `Except` results.
-/

namespace BedPak

/-! ### Validator: `validateMcaddonFile` (storage.ts lines 70-83) -/

/-- Embedding of `validateMcaddonFile`: ZIP magic-byte check.
The source rejects buffers shorter than 4 bytes, then compares the first
four bytes against `PK\x03\x04`. -/
def validateMcaddonFile (fileBuffer : List Nat) : Bool :=
  if fileBuffer.length < 4 then
    false
  else
    let magicBytes := fileBuffer.take 4
    magicBytes.getD 0 0 == 0x50 && magicBytes.getD 1 0 == 0x4b &&
    magicBytes.getD 2 0 == 0x03 && magicBytes.getD 3 0 == 0x04

/-- C4: `validateArchive` returns true iff the first four bytes of the
buffer are exactly `0x50 0x4B 0x03 0x04`; in particular every buffer
shorter than four bytes yields `false`, and no further structural check
is applied (the result is fully determined by the four-byte head). -/
theorem validateMcaddonFile_iff_zip_magic (b : List Nat) :
    validateMcaddonFile b = true ↔ b.take 4 = [0x50, 0x4b, 0x03, 0x04] := by
  match b with
  | [] => simp [validateMcaddonFile]
  | [b0] => simp [validateMcaddonFile]
  | [b0, b1] => simp [validateMcaddonFile]
  | [b0, b1, b2] => simp [validateMcaddonFile]
  | b0 :: b1 :: b2 :: b3 :: rest =>
    simp [validateMcaddonFile, List.take, and_assoc]

/-- C4 witness: the theorem instantiated at a concrete buffer. -/
theorem validateMcaddonFile_iff_zip_magic_witness :
    (validateMcaddonFile [0x50, 0x4b, 0x03, 0x04, 0xff] = true ↔
      [(0x50 : Nat), 0x4b, 0x03, 0x04, 0xff].take 4 = [0x50, 0x4b, 0x03, 0x04]) ∧
    validateMcaddonFile [0x50, 0x4b, 0x03, 0x04, 0xff] = true :=
  ⟨validateMcaddonFile_iff_zip_magic [0x50, 0x4b, 0x03, 0x04, 0xff], by decide⟩

/-! ### Validator: `validateIconType` (storage.ts lines 236-270) -/

/-- A byte rendered as a character (ASCII model of `buffer.toString("utf8")`). -/
def byteToChar (b : Nat) : Char := Char.ofNat b

/-- ASCII model of decoding a byte buffer to text. -/
def bytesToChars (bs : List Nat) : List Char := bs.map byteToChar

/-- Whitespace recognised by `String.prototype.trim` (ASCII part). -/
def isJsSpace (c : Char) : Bool :=
  c = ' ' || c = '\t' || c = '\n' || c = '\r' || c = '\x0b' || c = '\x0c'

/-- Model of `String.prototype.trim`. -/
def trimChars (s : List Char) : List Char :=
  ((s.dropWhile isJsSpace).reverse.dropWhile isJsSpace).reverse

/-- `s.startsWith(pat)` on character lists. -/
def startsWithCh : List Char → List Char → Bool
  | [], _ => true
  | _ :: _, [] => false
  | p :: ps, c :: cs => p == c && startsWithCh ps cs

/-- `s.includes(pat)` on character lists. -/
def containsCh (pat : List Char) : List Char → Bool
  | [] => startsWithCh pat []
  | s@(_ :: rest) => startsWithCh pat s || containsCh pat rest

/-- Result record of `validateIconType`. -/
structure IconTypeResult where
  valid : Bool
  mimeType : Option String
  extension : Option String
deriving Repr, DecidableEq

/-- Embedding of `validateIconType`: magic-byte sniffing for icons, in the
source's order — length gate, PNG, JPEG, WebP, GIF, then the textual
SVG sniff over the first 1024 bytes. -/
def validateIconType (buffer : List Nat) : IconTypeResult :=
  if buffer.length < 4 then ⟨false, none, none⟩
  else if buffer.getD 0 0 == 0x89 && buffer.getD 1 0 == 0x50 &&
          buffer.getD 2 0 == 0x4E && buffer.getD 3 0 == 0x47 then
    ⟨true, some "image/png", some "png"⟩
  else if buffer.getD 0 0 == 0xFF && buffer.getD 1 0 == 0xD8 &&
          buffer.getD 2 0 == 0xFF then
    ⟨true, some "image/jpeg", some "jpg"⟩
  else if 12 ≤ buffer.length &&
          buffer.getD 0 0 == 0x52 && buffer.getD 1 0 == 0x49 &&
          buffer.getD 2 0 == 0x46 && buffer.getD 3 0 == 0x46 &&
          buffer.getD 8 0 == 0x57 && buffer.getD 9 0 == 0x45 &&
          buffer.getD 10 0 == 0x42 && buffer.getD 11 0 == 0x50 then
    ⟨true, some "image/webp", some "webp"⟩
  else if buffer.getD 0 0 == 0x47 && buffer.getD 1 0 == 0x49 &&
          buffer.getD 2 0 == 0x46 && buffer.getD 3 0 == 0x38 then
    ⟨true, some "image/gif", some "gif"⟩
  else
    let content := trimChars (bytesToChars (buffer.take 1024))
    if startsWithCh "<?xml".data content || startsWithCh "<svg".data content ||
       containsCh "<svg".data content then
      ⟨true, some "image/svg+xml", some "svg"⟩
    else ⟨false, none, none⟩

/-- The PNG signature `89 50 4E 47` at bytes 0-3 (spec §4.1). -/
def pngSigB (b : List Nat) : Bool :=
  4 ≤ b.length && b.getD 0 0 == 0x89 && b.getD 1 0 == 0x50 &&
  b.getD 2 0 == 0x4E && b.getD 3 0 == 0x47

/-- The JPEG signature `FF D8 FF` at bytes 0-2 (spec §4.1). -/
def jpegSigB (b : List Nat) : Bool :=
  3 ≤ b.length && b.getD 0 0 == 0xFF && b.getD 1 0 == 0xD8 && b.getD 2 0 == 0xFF

/-- The WebP signature: `RIFF` at bytes 0-3 and `WEBP` at bytes 8-11 (spec §4.1). -/
def webpSigB (b : List Nat) : Bool :=
  12 ≤ b.length &&
  b.getD 0 0 == 0x52 && b.getD 1 0 == 0x49 && b.getD 2 0 == 0x46 &&
  b.getD 3 0 == 0x46 && b.getD 8 0 == 0x57 && b.getD 9 0 == 0x45 &&
  b.getD 10 0 == 0x42 && b.getD 11 0 == 0x50

/-- The GIF signature `47 49 46 38` at bytes 0-3 (spec §4.1). -/
def gifSigB (b : List Nat) : Bool :=
  4 ≤ b.length && b.getD 0 0 == 0x47 && b.getD 1 0 == 0x49 &&
  b.getD 2 0 == 0x46 && b.getD 3 0 == 0x38

/-- The textual SVG sniff over the first 1KB (spec §4.1). -/
def svgSniffB (b : List Nat) : Bool :=
  let content := trimChars (bytesToChars (b.take 1024))
  startsWithCh "<?xml".data content || startsWithCh "<svg".data content ||
  containsCh "<svg".data content

/-- C5 counterexample: the three-byte buffer `FF D8 FF` bears the JPEG
signature, yet `validateIconType` reports it invalid, because the code
rejects every buffer shorter than four bytes before any signature is
examined.  This refutes "for every buffer bearing one of the binary
signatures it returns valid=true with the matching mimeType". -/
theorem validateIconType_rejects_three_byte_jpeg :
    jpegSigB [0xFF, 0xD8, 0xFF] = true ∧
    (validateIconType [0xFF, 0xD8, 0xFF]).valid = false := by decide

/-- C5 (amended): for every buffer of length at least four,
`validateIconType` checks the signatures in the fixed precedence order
PNG, JPEG, WebP, GIF, then the textual SVG sniff of the first 1KB;
the first matching class determines the result, and a buffer matching
none of them is reported invalid. -/
theorem validateIconType_precedence (b : List Nat) (h : 4 ≤ b.length) :
    (pngSigB b = true → validateIconType b = ⟨true, some "image/png", some "png"⟩) ∧
    (pngSigB b = false → jpegSigB b = true →
      validateIconType b = ⟨true, some "image/jpeg", some "jpg"⟩) ∧
    (pngSigB b = false → jpegSigB b = false → webpSigB b = true →
      validateIconType b = ⟨true, some "image/webp", some "webp"⟩) ∧
    (pngSigB b = false → jpegSigB b = false → webpSigB b = false →
      gifSigB b = true → validateIconType b = ⟨true, some "image/gif", some "gif"⟩) ∧
    (pngSigB b = false → jpegSigB b = false → webpSigB b = false →
      gifSigB b = false → svgSniffB b = true →
      validateIconType b = ⟨true, some "image/svg+xml", some "svg"⟩) ∧
    (pngSigB b = false → jpegSigB b = false → webpSigB b = false →
      gifSigB b = false → svgSniffB b = false →
      validateIconType b = ⟨false, none, none⟩) := by
  have hlt : ¬ b.length < 4 := by omega
  have h3 : 3 ≤ b.length := by omega
  have hd4 : (decide (4 ≤ b.length)) = true := by simpa using h
  have hd3 : (decide (3 ≤ b.length)) = true := by simpa using h3
  refine ⟨?_, ?_, ?_, ?_, ?_, ?_⟩
  case refine_1 =>
    intro hp
    unfold pngSigB at hp
    rw [hd4, Bool.true_and] at hp
    unfold validateIconType
    rw [if_neg hlt, if_pos hp]
  case refine_2 =>
    intro hp hj
    unfold pngSigB at hp
    rw [hd4, Bool.true_and] at hp
    unfold jpegSigB at hj
    rw [hd3, Bool.true_and] at hj
    unfold validateIconType
    rw [if_neg hlt, if_neg (by simp only [Bool.not_eq_true]; exact hp), if_pos hj]
  case refine_3 =>
    intro hp hj hw
    unfold pngSigB at hp
    rw [hd4, Bool.true_and] at hp
    unfold jpegSigB at hj
    rw [hd3, Bool.true_and] at hj
    unfold webpSigB at hw
    unfold validateIconType
    rw [if_neg hlt, if_neg (by simp only [Bool.not_eq_true]; exact hp), if_neg (by simp only [Bool.not_eq_true]; exact hj), if_pos hw]
  case refine_4 =>
    intro hp hj hw hg
    unfold pngSigB at hp
    rw [hd4, Bool.true_and] at hp
    unfold jpegSigB at hj
    rw [hd3, Bool.true_and] at hj
    unfold webpSigB at hw
    unfold gifSigB at hg
    rw [hd4, Bool.true_and] at hg
    unfold validateIconType
    rw [if_neg hlt, if_neg (by simp only [Bool.not_eq_true]; exact hp), if_neg (by simp only [Bool.not_eq_true]; exact hj),
      if_neg (by simp only [Bool.not_eq_true]; exact hw), if_pos hg]
  case refine_5 =>
    intro hp hj hw hg hs
    unfold pngSigB at hp
    rw [hd4, Bool.true_and] at hp
    unfold jpegSigB at hj
    rw [hd3, Bool.true_and] at hj
    unfold webpSigB at hw
    unfold gifSigB at hg
    rw [hd4, Bool.true_and] at hg
    simp only [svgSniffB, Bool.or_eq_true] at hs
    unfold validateIconType
    rw [if_neg hlt, if_neg (by simp only [Bool.not_eq_true]; exact hp), if_neg (by simp only [Bool.not_eq_true]; exact hj),
      if_neg (by simp only [Bool.not_eq_true]; exact hw), if_neg (by simp only [Bool.not_eq_true]; exact hg)]
    rcases hs with (h1 | h1) | h1 <;> simp [h1]
  case refine_6 =>
    intro hp hj hw hg hs
    unfold pngSigB at hp
    rw [hd4, Bool.true_and] at hp
    unfold jpegSigB at hj
    rw [hd3, Bool.true_and] at hj
    unfold webpSigB at hw
    unfold gifSigB at hg
    rw [hd4, Bool.true_and] at hg
    simp only [svgSniffB, Bool.or_eq_false_iff] at hs
    unfold validateIconType
    rw [if_neg hlt, if_neg (by simp only [Bool.not_eq_true]; exact hp), if_neg (by simp only [Bool.not_eq_true]; exact hj),
      if_neg (by simp only [Bool.not_eq_true]; exact hw), if_neg (by simp only [Bool.not_eq_true]; exact hg)]
    simp [hs.1.1, hs.1.2, hs.2]

/-- C5 witness: the amended theorem applied to a concrete PNG header. -/
theorem validateIconType_precedence_witness :
    validateIconType [0x89, 0x50, 0x4E, 0x47] =
      ⟨true, some "image/png", some "png"⟩ :=
  (validateIconType_precedence [0x89, 0x50, 0x4E, 0x47] (by decide)).1 (by decide)

/-! ### Content store: `sanitizeForFilesystem` (storage.ts lines 18-25) -/

/-- The character class `[/\\:*?"<>|]` of the first replace. -/
def isFsDangerous (c : Char) : Bool :=
  c = '/' || c = '\\' || c = ':' || c = '*' || c = '?' ||
  c = '"' || c = '<' || c = '>' || c = '|'

/-- `name.replace(/[/\\:*?"<>|]/g, "_")`: a global single-character-class
replace is a character map. -/
def replaceFsDangerous (s : List Char) : List Char :=
  s.map (fun c => if isFsDangerous c then '_' else c)

/-- `name.replace(/\.\./g, "_")`: scan left to right, replacing each
non-overlapping occurrence of `..` with `_` and resuming after it. -/
def replaceDotDot : List Char → List Char
  | [] => []
  | [c] => [c]
  | c :: d :: rest =>
    if c = '.' ∧ d = '.' then '_' :: replaceDotDot rest
    else c :: replaceDotDot (d :: rest)

/-- `name.replace(/^\.+/, "_")`: a leading run of dots becomes one `_`. -/
def stripLeadingDots (s : List Char) : List Char :=
  match s with
  | [] => []
  | c :: t =>
    if c = '.' then '_' :: (c :: t).dropWhile (fun x => x = '.') else c :: t

/-- Embedding of `sanitizeForFilesystem` (the three replaces then
`.slice(0, 64)`). -/
def sanitizeForFilesystem (name : String) : String :=
  ⟨(stripLeadingDots (replaceDotDot (replaceFsDangerous name.data))).take 64⟩

/-- Every character of `replaceDotDot s` is `_` or comes from `s`. -/
theorem replaceDotDot_chars (s : List Char) :
    ∀ c ∈ replaceDotDot s, c = '_' ∨ c ∈ s := by
  induction s using replaceDotDot.induct with
  | case1 => simp [replaceDotDot]
  | case2 c => simp [replaceDotDot]
  | case3 c d rest hdd ih =>
    intro e he
    rw [replaceDotDot, if_pos hdd] at he
    rcases List.mem_cons.mp he with he | he
    · exact Or.inl he
    · rcases ih e he with h | h
      · exact Or.inl h
      · exact Or.inr (by simp [h])
  | case4 c d rest hdd ih =>
    intro e he
    rw [replaceDotDot, if_neg hdd] at he
    rcases List.mem_cons.mp he with he | he
    · exact Or.inr (by simp [he])
    · rcases ih e he with h | h
      · exact Or.inl h
      · exact Or.inr (by
          rcases List.mem_cons.mp h with h' | h' <;> simp [h'])

/-- The head of `replaceDotDot s` is `_` or the head of `s`. -/
theorem replaceDotDot_head (s : List Char) (c : Char) (t : List Char)
    (h : replaceDotDot s = c :: t) : c = '_' ∨ s.head? = some c := by
  match s with
  | [] => rw [replaceDotDot] at h; exact absurd h (by simp)
  | [e] =>
    rw [replaceDotDot] at h
    exact Or.inr (by rw [← (List.cons.inj h).1]; rfl)
  | e :: d :: rest =>
    rw [replaceDotDot] at h
    by_cases hdd : e = '.' ∧ d = '.'
    · rw [if_pos hdd] at h
      exact Or.inl ((List.cons.inj h).1).symm
    · rw [if_neg hdd] at h
      exact Or.inr (by rw [← (List.cons.inj h).1]; rfl)

/-- No two adjacent dots survive `replaceDotDot`. -/
theorem replaceDotDot_chain (s : List Char) :
    List.Chain' (fun a b => ¬(a = '.' ∧ b = '.')) (replaceDotDot s) := by
  induction s using replaceDotDot.induct with
  | case1 => rw [replaceDotDot]; exact List.chain'_nil
  | case2 c => rw [replaceDotDot]; exact List.chain'_singleton c
  | case3 c d rest hdd ih =>
    rw [replaceDotDot, if_pos hdd, List.chain'_cons']
    refine ⟨?_, ih⟩
    intro y _
    simp
  | case4 c d rest hdd ih =>
    rw [replaceDotDot, if_neg hdd, List.chain'_cons']
    refine ⟨?_, ih⟩
    intro y hy
    rintro ⟨rfl, rfl⟩
    match ht : replaceDotDot (d :: rest) with
    | [] => rw [ht] at hy; simp at hy
    | e :: t =>
      rw [ht] at hy
      simp only [List.head?_cons, Option.mem_def, Option.some.injEq] at hy
      rcases replaceDotDot_head (d :: rest) e t ht with hd | hd
      · rw [hd] at hy; exact absurd hy (by decide)
      · simp only [List.head?_cons, Option.some.injEq] at hd
        exact hdd ⟨rfl, by rw [hd]; exact hy⟩


/-- Characters of `stripLeadingDots s` are `_` or characters of `s`. -/
theorem stripLeadingDots_chars (s : List Char) :
    ∀ c ∈ stripLeadingDots s, c = '_' ∨ c ∈ s := by
  match s with
  | [] => simp [stripLeadingDots]
  | d :: t =>
    intro c hc
    rw [stripLeadingDots] at hc
    by_cases hd : d = '.'
    · rw [if_pos hd] at hc
      rcases List.mem_cons.mp hc with hc | hc
      · exact Or.inl hc
      · exact Or.inr ((List.dropWhile_sublist _).subset hc)
    · rw [if_neg hd] at hc
      exact Or.inr hc

/-- `stripLeadingDots` never returns a list starting with a dot. -/
theorem stripLeadingDots_head (s : List Char) :
    (stripLeadingDots s).head? ≠ some '.' := by
  match s with
  | [] => simp [stripLeadingDots]
  | d :: t =>
    rw [stripLeadingDots]
    by_cases hd : d = '.'
    · rw [if_pos hd]; simp
    · rw [if_neg hd]; simpa using hd

/-- `stripLeadingDots` preserves the absence of adjacent dots. -/
theorem stripLeadingDots_chain (s : List Char)
    (h : List.Chain' (fun a b => ¬(a = '.' ∧ b = '.')) s) :
    List.Chain' (fun a b => ¬(a = '.' ∧ b = '.')) (stripLeadingDots s) := by
  match s with
  | [] => exact h
  | d :: t =>
    rw [stripLeadingDots]
    by_cases hd : d = '.'
    · rw [if_pos hd]
      subst hd
      have htail : List.Chain' (fun a b => ¬(a = '.' ∧ b = '.')) t :=
        (List.chain'_cons'.mp h).2
      have hhead : ∀ y ∈ t.head?, y ≠ '.' := by
        intro y hy
        have := (List.chain'_cons'.mp h).1 y hy
        intro hy'
        exact this ⟨rfl, hy'⟩
      have hdrop : ('.' :: t).dropWhile (fun x => x = '.') = t := by
        rw [List.dropWhile_cons, if_pos (by simp)]
        match t, hhead with
        | [], _ => rfl
        | y :: t', hh =>
          have hy : ¬(y = '.') := hh y (by simp)
          rw [List.dropWhile_cons, if_neg (by simpa using hy)]
      rw [hdrop, List.chain'_cons']
      refine ⟨?_, htail⟩
      intro y hy
      simp only [not_and]
      intro hu
      exact absurd hu (by decide)
    · rw [if_neg hd]
      exact h

/-- C10: for every input string, the filesystem name sanitizer returns a
string of length at most 64 with no `/` and no `\` character, containing
no `..` substring and not beginning with `.`; hence the package directory
name `{id}-{sanitizedName}` built from it stays a single path component
inside the storage root. -/
theorem sanitizeForFilesystem_safe (name : String) :
    (sanitizeForFilesystem name).length ≤ 64 ∧
    '/' ∉ (sanitizeForFilesystem name).data ∧
    '\\' ∉ (sanitizeForFilesystem name).data ∧
    ¬ (['.', '.'] <:+: (sanitizeForFilesystem name).data) ∧
    (sanitizeForFilesystem name).data.head? ≠ some '.' := by
  have hdata : (sanitizeForFilesystem name).data =
      (stripLeadingDots (replaceDotDot (replaceFsDangerous name.data))).take 64 := rfl
  have hchars : ∀ c ∈ (sanitizeForFilesystem name).data, c = '_' ∨ c ∈ name.data ∧
      isFsDangerous c = false := by
    intro c hc
    rw [hdata] at hc
    have hc' := List.take_subset 64 _ hc
    rcases stripLeadingDots_chars _ c hc' with h1 | h1
    · exact Or.inl h1
    rcases replaceDotDot_chars _ c h1 with h2 | h2
    · exact Or.inl h2
    rcases List.mem_map.mp h2 with ⟨a, ha, hfa⟩
    by_cases hdang : isFsDangerous a
    · simp only [hdang, if_true] at hfa
      exact Or.inl hfa.symm
    · simp only [hdang, if_false] at hfa
      subst hfa
      exact Or.inr ⟨ha, by simpa using hdang⟩
  refine ⟨?_, ?_, ?_, ?_, ?_⟩
  · show (sanitizeForFilesystem name).data.length ≤ 64
    rw [hdata, List.length_take]
    exact min_le_left _ _
  · intro hmem
    rcases hchars _ hmem with h | ⟨_, h⟩
    · exact absurd h (by decide)
    · exact absurd h (by decide)
  · intro hmem
    rcases hchars _ hmem with h | ⟨_, h⟩
    · exact absurd h (by decide)
    · exact absurd h (by decide)
  · intro hinf
    have hchain : List.Chain' (fun a b => ¬(a = '.' ∧ b = '.'))
        (sanitizeForFilesystem name).data := by
      rw [hdata]
      exact List.Chain'.take (stripLeadingDots_chain _ (replaceDotDot_chain _)) 64
    rcases hinf with ⟨u, v, huv⟩
    rw [← huv] at hchain
    simp only [List.append_assoc, List.cons_append, List.nil_append] at hchain
    exact (List.chain'_append_cons_cons.mp hchain).2.1 ⟨rfl, rfl⟩
  · rw [hdata]
    match hst : stripLeadingDots (replaceDotDot (replaceFsDangerous name.data)) with
    | [] => simp
    | c :: t =>
      have := stripLeadingDots_head (replaceDotDot (replaceFsDangerous name.data))
      rw [hst] at this
      simp only [List.head?_cons] at this
      rw [show (64 : Nat) = 63 + 1 from rfl, List.take_succ_cons]
      simpa using this

/-! ### Sanitizer: `sanitizeSvg` (storage.ts lines 276-309)

The sanitizer is a chain of thirteen `String.prototype.replace` calls with
global, case-insensitive regexes.  Every repetition in those regexes is a
repetition of a single character class, so JS backtracking semantics can be
embedded exactly: a match at a position is found by trying the possible
repetition counts in greedy (descending) or lazy (ascending) order and
recursing on the rest of the pattern.  Fuel arguments make the recursions
structural; the fuel bounds are generous enough never to be exhausted on
the inputs considered (each recursive call consumes one unit and the
search tree at one position is finite). -/

/-- ASCII lower-casing, for the `/i` regex flag. -/
def toLowerCh (c : Char) : Char :=
  if 'A' ≤ c ∧ c ≤ 'Z' then Char.ofNat (c.toNat + 32) else c

/-- The character classes appearing in the sanitizer's regexes. -/
inductive CharCls
  | anyCh        -- [\s\S]
  | wordCh       -- \w
  | spaceCh      -- \s
  | quoteCh      -- ["']
  | notQuote     -- [^"']
  | notGt        -- [^>]
  | notSpaceGt   -- [^\s>]
deriving Repr, DecidableEq

/-- Which characters a class matches (ASCII model). -/
def CharCls.matchesCh : CharCls → Char → Bool
  | anyCh, _ => true
  | wordCh, c =>
    ('A' ≤ c && c ≤ 'Z') || ('a' ≤ c && c ≤ 'z') || ('0' ≤ c && c ≤ '9') || c = '_'
  | spaceCh, c => isJsSpace c
  | quoteCh, c => c = '"' || c = Char.ofNat 39
  | notQuote, c => !(c = '"' || c = Char.ofNat 39)
  | notGt, c => c ≠ '>'
  | notSpaceGt, c => !(isJsSpace c) && c ≠ '>'

/-- One element of a (linear) regex: a case-insensitive literal, a single
class, greedy/lazy class repetitions, an optional literal, or a negative
lookahead at a literal. -/
inductive RElem
  | lit (cs : List Char)
  | one (c : CharCls)
  | starG (c : CharCls)
  | starL (c : CharCls)
  | plusG (c : CharCls)
  | optLit (cs : List Char)
  | nlaLit (cs : List Char)
deriving Repr

/-- Case-insensitive literal prefix test. -/
def ciPrefix : List Char → List Char → Bool
  | [], _ => true
  | _ :: _, [] => false
  | p :: ps, c :: cs => toLowerCh p == toLowerCh c && ciPrefix ps cs

/-- Length of the maximal run of class characters at the front. -/
def clsRun (c : CharCls) : List Char → Nat
  | [] => 0
  | x :: xs => if c.matchesCh x then clsRun c xs + 1 else 0

mutual

/-- Backtracking matcher: `mtch fuel ps s` returns the number of
characters a match of the element sequence `ps` consumes at the front of
`s`, following JS semantics (greedy repetitions try longest first, lazy
ones shortest first). -/
def mtch : Nat → List RElem → List Char → Option Nat
  | 0, _, _ => none
  | _ + 1, [], _ => some 0
  | fuel + 1, RElem.lit cs :: ps, s =>
    if ciPrefix cs s then (mtch fuel ps (s.drop cs.length)).map (cs.length + ·)
    else none
  | fuel + 1, RElem.one c :: ps, s =>
    match s with
    | [] => none
    | x :: xs => if c.matchesCh x then (mtch fuel ps xs).map (1 + ·) else none
  | fuel + 1, RElem.starG c :: ps, s =>
    tryDrops fuel ps s (List.range (clsRun c s + 1)).reverse
  | fuel + 1, RElem.starL c :: ps, s =>
    tryDrops fuel ps s (List.range (clsRun c s + 1))
  | fuel + 1, RElem.plusG c :: ps, s =>
    tryDrops fuel ps s (((List.range (clsRun c s + 1)).reverse).filter (fun k => 0 < k))
  | fuel + 1, RElem.optLit cs :: ps, s =>
    match (if ciPrefix cs s then (mtch fuel ps (s.drop cs.length)).map (cs.length + ·)
           else none) with
    | some n => some n
    | none => mtch fuel ps s
  | fuel + 1, RElem.nlaLit cs :: ps, s =>
    if ciPrefix cs s then none else mtch fuel ps s

/-- Try the given repetition counts in order; on success add the count. -/
def tryDrops : Nat → List RElem → List Char → List Nat → Option Nat
  | 0, _, _, _ => none
  | _ + 1, _, _, [] => none
  | fuel + 1, ps, s, k :: ks =>
    match mtch fuel ps (s.drop k) with
    | some n => some (k + n)
    | none => tryDrops fuel ps s ks

end

/-- Fuel given to one match attempt (never exhausted on our inputs). -/
def reFuel : Nat := 200000

/-- Ordered alternation: first branch that matches wins (JS `|`). -/
def matchAlt (res : List (List RElem)) (s : List Char) : Option Nat :=
  match res with
  | [] => none
  | re :: rest =>
    match mtch reFuel re s with
    | some n => some n
    | none => matchAlt rest s

/-- The global-replace driver of `String.prototype.replace(/…/g, repl)`:
scan left to right; at a match, emit the replacement and resume after the
matched text; otherwise emit one character and move on.  (The sanitizer's
patterns never match the empty string; a zero-length match is treated as
no match.) -/
def gsubM (m : List Char → Option Nat) (repl : List Char) :
    Nat → List Char → List Char
  | 0, s => s
  | _ + 1, [] => []
  | fuel + 1, c :: rest =>
    match m (c :: rest) with
    | some (n + 1) => repl ++ gsubM m repl fuel ((c :: rest).drop (n + 1))
    | _ => c :: gsubM m repl fuel rest

/-- `s.replace(/…/g, repl)` with matcher `m`. -/
def jsReplaceAll (m : List Char → Option Nat) (repl : List Char)
    (s : List Char) : List Char :=
  gsubM m repl (s.length + 1) s

/-- `/<script[\s\S]*?<\/script>/gi` -/
def scriptRe : List RElem :=
  [RElem.lit "<script".data, RElem.starL CharCls.anyCh, RElem.lit "</script>".data]

/-- `/\s+on\w+\s*=\s*["'][^"']*["']/gi` -/
def onAttrQuotedRe : List RElem :=
  [RElem.plusG CharCls.spaceCh, RElem.lit "on".data, RElem.plusG CharCls.wordCh,
   RElem.starG CharCls.spaceCh, RElem.lit "=".data, RElem.starG CharCls.spaceCh,
   RElem.one CharCls.quoteCh, RElem.starG CharCls.notQuote, RElem.one CharCls.quoteCh]

/-- `/\s+on\w+\s*=\s*[^\s>]+/gi` -/
def onAttrBareRe : List RElem :=
  [RElem.plusG CharCls.spaceCh, RElem.lit "on".data, RElem.plusG CharCls.wordCh,
   RElem.starG CharCls.spaceCh, RElem.lit "=".data, RElem.starG CharCls.spaceCh,
   RElem.plusG CharCls.notSpaceGt]

/-- `/href\s*=\s*["']javascript:[^"']*["']/gi` -/
def hrefJsRe : List RElem :=
  [RElem.lit "href".data, RElem.starG CharCls.spaceCh, RElem.lit "=".data,
   RElem.starG CharCls.spaceCh, RElem.one CharCls.quoteCh,
   RElem.lit "javascript:".data, RElem.starG CharCls.notQuote,
   RElem.one CharCls.quoteCh]

/-- `/xlink:href\s*=\s*["']javascript:[^"']*["']/gi` -/
def xlinkJsRe : List RElem :=
  [RElem.lit "xlink:href".data, RElem.starG CharCls.spaceCh, RElem.lit "=".data,
   RElem.starG CharCls.spaceCh, RElem.one CharCls.quoteCh,
   RElem.lit "javascript:".data, RElem.starG CharCls.notQuote,
   RElem.one CharCls.quoteCh]

/-- `/href\s*=\s*["']data:(?!image\/)[^"']*["']/gi` -/
def hrefDataRe : List RElem :=
  [RElem.lit "href".data, RElem.starG CharCls.spaceCh, RElem.lit "=".data,
   RElem.starG CharCls.spaceCh, RElem.one CharCls.quoteCh, RElem.lit "data:".data,
   RElem.nlaLit "image/".data, RElem.starG CharCls.notQuote,
   RElem.one CharCls.quoteCh]

/-- `/xlink:href\s*=\s*["']data:(?!image\/)[^"']*["']/gi` -/
def xlinkDataRe : List RElem :=
  [RElem.lit "xlink:href".data, RElem.starG CharCls.spaceCh, RElem.lit "=".data,
   RElem.starG CharCls.spaceCh, RElem.one CharCls.quoteCh, RElem.lit "data:".data,
   RElem.nlaLit "image/".data, RElem.starG CharCls.notQuote,
   RElem.one CharCls.quoteCh]

/-- `/<foreignObject[\s\S]*?<\/foreignObject>/gi` -/
def foreignObjectRe : List RElem :=
  [RElem.lit "<foreignObject".data, RElem.starL CharCls.anyCh,
   RElem.lit "</foreignObject>".data]

/-- `/<use[^>]*xlink:href\s*=\s*["'](?!#)[^"']*["'][^>]*\/?>/gi` -/
def useExternalRe : List RElem :=
  [RElem.lit "<use".data, RElem.starG CharCls.notGt, RElem.lit "xlink:href".data,
   RElem.starG CharCls.spaceCh, RElem.lit "=".data, RElem.starG CharCls.spaceCh,
   RElem.one CharCls.quoteCh, RElem.nlaLit "#".data, RElem.starG CharCls.notQuote,
   RElem.one CharCls.quoteCh, RElem.starG CharCls.notGt, RElem.optLit "/".data,
   RElem.lit ">".data]

/-- Find the end of the earliest case-insensitive occurrence of `close`. -/
def findCiIncl (close : List Char) : List Char → Option Nat
  | [] => none
  | s@(_ :: rest) =>
    if ciPrefix close s then some close.length
    else (findCiIncl close rest).map (1 + ·)

/-- `/<(iframe|embed|object)[\s\S]*?<\/\1>/gi`: the alternatives differ at
their second character, so at a given position at most one open literal
matches and the back-reference pairs it with its own closing tag; the lazy
body reaches to the earliest closing tag. -/
def matchTagPair (s : List Char) : Option Nat :=
  let pairs := [("<iframe".data, "</iframe>".data),
                ("<embed".data, "</embed>".data),
                ("<object".data, "</object>".data)]
  pairs.firstM (fun (p : List Char × List Char) =>
    if ciPrefix p.1 s then
      (findCiIncl p.2 (s.drop p.1.length)).map (p.1.length + ·)
    else none)

/-- `/<(iframe|embed|object)[^>]*\/?>/gi` as an ordered alternation. -/
def tagSelfRes : List (List RElem) :=
  [[RElem.lit "<iframe".data, RElem.starG CharCls.notGt, RElem.optLit "/".data,
    RElem.lit ">".data],
   [RElem.lit "<embed".data, RElem.starG CharCls.notGt, RElem.optLit "/".data,
    RElem.lit ">".data],
   [RElem.lit "<object".data, RElem.starG CharCls.notGt, RElem.optLit "/".data,
    RElem.lit ">".data]]

/-- `/<set[^>]*on\w+[^>]*\/?>/gi` -/
def setOnRe : List RElem :=
  [RElem.lit "<set".data, RElem.starG CharCls.notGt, RElem.lit "on".data,
   RElem.plusG CharCls.wordCh, RElem.starG CharCls.notGt, RElem.optLit "/".data,
   RElem.lit ">".data]

/-- `/<animate[^>]*on\w+[^>]*\/?>/gi` -/
def animateOnRe : List RElem :=
  [RElem.lit "<animate".data, RElem.starG CharCls.notGt, RElem.lit "on".data,
   RElem.plusG CharCls.wordCh, RElem.starG CharCls.notGt, RElem.optLit "/".data,
   RElem.lit ">".data]

/-- Embedding of `sanitizeSvg`: the thirteen replaces in source order. -/
def sanitizeSvg (content : String) : String :=
  let s := content.data
  let s := jsReplaceAll (matchAlt [scriptRe]) [] s
  let s := jsReplaceAll (matchAlt [onAttrQuotedRe]) [] s
  let s := jsReplaceAll (matchAlt [onAttrBareRe]) [] s
  let s := jsReplaceAll (matchAlt [hrefJsRe]) "href=\"\"".data s
  let s := jsReplaceAll (matchAlt [xlinkJsRe]) "xlink:href=\"\"".data s
  let s := jsReplaceAll (matchAlt [hrefDataRe]) "href=\"\"".data s
  let s := jsReplaceAll (matchAlt [xlinkDataRe]) "xlink:href=\"\"".data s
  let s := jsReplaceAll (matchAlt [foreignObjectRe]) [] s
  let s := jsReplaceAll (matchAlt [useExternalRe]) [] s
  let s := jsReplaceAll matchTagPair [] s
  let s := jsReplaceAll (matchAlt tagSelfRes) [] s
  let s := jsReplaceAll (matchAlt [setOnRe]) [] s
  let s := jsReplaceAll (matchAlt [animateOnRe]) [] s
  ⟨s⟩

/-- C3 counterexample: `sanitizeSvg` is not idempotent on every buffer
containing the listed construct classes.  The input below contains a
literal inline `<script>x</script>` block; removing it splices the
surrounding text `<scr…ipt>` into a new `<script>alert(1)</script>`
element, so the first application returns that element and only the
second application removes it. -/
theorem sanitizeSvg_not_idempotent :
    containsCh "<script>x</script>".data
      "<scr<script>x</script>ipt>alert(1)</script>".data = true ∧
    sanitizeSvg "<scr<script>x</script>ipt>alert(1)</script>" =
      "<script>alert(1)</script>" ∧
    sanitizeSvg (sanitizeSvg "<scr<script>x</script>ipt>alert(1)</script>") ≠
      sanitizeSvg "<scr<script>x</script>ipt>alert(1)</script>" := by
  refine ⟨by decide, by decide, by decide⟩

/-- C3 (amended): `sanitizeSvg` is a fixed point on the spec's
representative malicious payloads — an inline `<script>` element, an
`onload="…"` handler attribute, a `javascript:` href, a
`<foreignObject>` block, and an external `<use>` reference — though not
on every buffer containing those construct classes, since removing one
construct can splice the surrounding text into a new one. -/
theorem sanitizeSvg_idempotent_on_representatives :
    sanitizeSvg (sanitizeSvg "<svg><script>alert(1)</script></svg>") =
      sanitizeSvg "<svg><script>alert(1)</script></svg>" ∧
    sanitizeSvg (sanitizeSvg "<svg onload=\"alert(1)\"><rect/></svg>") =
      sanitizeSvg "<svg onload=\"alert(1)\"><rect/></svg>" ∧
    sanitizeSvg (sanitizeSvg "<a href=\"javascript:alert(1)\">x</a>") =
      sanitizeSvg "<a href=\"javascript:alert(1)\">x</a>" ∧
    sanitizeSvg (sanitizeSvg "<svg><foreignObject><body>x</body></foreignObject></svg>") =
      sanitizeSvg "<svg><foreignObject><body>x</body></foreignObject></svg>" ∧
    sanitizeSvg (sanitizeSvg "<svg><use xlink:href=\"http://evil/x.svg#i\"/></svg>") =
      sanitizeSvg "<svg><use xlink:href=\"http://evil/x.svg#i\"/></svg>" := by
  refine ⟨by decide, by decide, by decide, by decide, by decide⟩

/-! ### SHA-256, the hash behind `calculateBufferHash`
(`createHash("sha256").update(buffer).digest("hex")`), implemented over
`Nat` with explicit reduction modulo `2^32`. -/

/-- Addition modulo `2^32`. -/
def add32 (a b : Nat) : Nat := (a + b) % 4294967296

/-- Right rotation of a 32-bit word. -/
def rotr32 (n a : Nat) : Nat :=
  (Nat.lor (Nat.shiftRight a n) (Nat.shiftLeft a (32 - n))) % 4294967296

/-- SHA-256 `Ch(e,f,g)`. -/
def shaCh (e f g : Nat) : Nat :=
  Nat.xor (Nat.land e f) (Nat.land (Nat.xor e 4294967295) g)

/-- SHA-256 `Maj(a,b,c)`. -/
def shaMaj (a b c : Nat) : Nat :=
  Nat.xor (Nat.xor (Nat.land a b) (Nat.land a c)) (Nat.land b c)

/-- SHA-256 `Σ₀`. -/
def bsig0 (x : Nat) : Nat := Nat.xor (Nat.xor (rotr32 2 x) (rotr32 13 x)) (rotr32 22 x)

/-- SHA-256 `Σ₁`. -/
def bsig1 (x : Nat) : Nat := Nat.xor (Nat.xor (rotr32 6 x) (rotr32 11 x)) (rotr32 25 x)

/-- SHA-256 `σ₀`. -/
def ssig0 (x : Nat) : Nat :=
  Nat.xor (Nat.xor (rotr32 7 x) (rotr32 18 x)) (Nat.shiftRight x 3)

/-- SHA-256 `σ₁`. -/
def ssig1 (x : Nat) : Nat :=
  Nat.xor (Nat.xor (rotr32 17 x) (rotr32 19 x)) (Nat.shiftRight x 10)

/-- The 64 SHA-256 round constants (decimal rendering of the standard
values 428a2f98, 71374491, ... from FIPS 180-4). -/
def shaK : List Nat :=
  [1116352408, 1899447441, 3049323471, 3921009573, 961987163,
   1508970993, 2453635748, 2870763221, 3624381080, 310598401,
   607225278, 1426881987, 1925078388, 2162078206, 2614888103,
   3248222580, 3835390401, 4022224774, 264347078, 604807628,
   770255983, 1249150122, 1555081692, 1996064986, 2554220882,
   2821834349, 2952996808, 3210313671, 3336571891, 3584528711,
   113926993, 338241895, 666307205, 773529912, 1294757372,
   1396182291, 1695183700, 1986661051, 2177026350, 2456956037,
   2730485921, 2820302411, 3259730800, 3345764771, 3516065817,
   3600352804, 4094571909, 275423344, 430227734, 506948616,
   659060556, 883997877, 958139571, 1322822218, 1537002063,
   1747873779, 1955562222, 2024104815, 2227730452, 2361852424,
   2428436474, 2756734187, 3204031479, 3329325298]

/-- The SHA-256 initial hash value (6a09e667, ..., 5be0cd19). -/
def shaH0 : List Nat :=
  [1779033703, 3144134277, 1013904242, 2773480762,
   1359893119, 2600822924, 528734635, 1541459225]

/-- Big-endian packing of bytes into 32-bit words. -/
def chunk4 : List Nat → List Nat
  | b0 :: b1 :: b2 :: b3 :: rest =>
    (((b0 * 256 + b1) * 256 + b2) * 256 + b3) :: chunk4 rest
  | _ => []

/-- Split a byte list into 64-byte blocks (fuelled for structural recursion). -/
def chunk64 : Nat → List Nat → List (List Nat)
  | 0, _ => []
  | _ + 1, [] => []
  | fuel + 1, bs => bs.take 64 :: chunk64 fuel (bs.drop 64)

/-- Extend the 16-word message schedule to 64 words. -/
def buildW : Nat → List Nat → List Nat
  | 0, acc => acc
  | n + 1, acc =>
    let i := acc.length
    let wi := add32 (add32 (ssig1 (acc.getD (i - 2) 0)) (acc.getD (i - 7) 0))
                    (add32 (ssig0 (acc.getD (i - 15) 0)) (acc.getD (i - 16) 0))
    buildW n (acc ++ [wi])

/-- One SHA-256 round on the state `[a,b,c,d,e,f,g,h]`. -/
def shaRound (st : List Nat) (wk : Nat × Nat) : List Nat :=
  let a := st.getD 0 0
  let b := st.getD 1 0
  let c := st.getD 2 0
  let d := st.getD 3 0
  let e := st.getD 4 0
  let f := st.getD 5 0
  let g := st.getD 6 0
  let h := st.getD 7 0
  let t1 := add32 h (add32 (bsig1 e) (add32 (shaCh e f g) (add32 wk.2 wk.1)))
  let t2 := add32 (bsig0 a) (shaMaj a b c)
  [add32 t1 t2, a, b, c, add32 d t1, e, f, g]

/-- Compression of one 64-byte block into the running hash. -/
def compressBlock (h : List Nat) (block : List Nat) : List Nat :=
  let w := buildW 48 (chunk4 block)
  let st := (w.zip shaK).foldl shaRound h
  List.zipWith add32 h st

/-- SHA-256 padding: `0x80`, zeros to 56 mod 64, 8-byte big-endian length. -/
def shaPad (msg : List Nat) : List Nat :=
  let padZeros := (64 - (msg.length + 9) % 64) % 64
  let lenBits := msg.length * 8
  msg ++ 0x80 :: List.replicate padZeros 0 ++
    [56, 48, 40, 32, 24, 16, 8, 0].map (fun sh => Nat.shiftRight lenBits sh % 256)

/-- One hexadecimal digit. -/
def toHexDigit (n : Nat) : Char :=
  if n < 10 then Char.ofNat (48 + n) else Char.ofNat (87 + n)

/-- Lower-case hex rendering of a 32-bit word. -/
def wordToHex (w : Nat) : List Char :=
  [28, 24, 20, 16, 12, 8, 4, 0].map (fun sh => toHexDigit (Nat.shiftRight w sh % 16))

/-- SHA-256 of a byte buffer, rendered as a 64-character hex string
(the value of `calculateBufferHash`). -/
def sha256hex (msg : List Nat) : String :=
  let padded := shaPad msg
  let blocks := chunk64 (padded.length + 1) padded
  ⟨((blocks.foldl compressBlock shaH0).map wordToHex).flatten⟩

/-- Sanity check of the SHA-256 implementation against the standard
test vector for the empty message. -/
theorem sha256hex_empty :
    sha256hex [] = "e3b0c44298fc1c149afbf4c8996fb92427ae41e4649b934ca495991b7852b855" := by
  decide

/-- Sanity check against the standard test vector for `"abc"`. -/
theorem sha256hex_abc :
    sha256hex [0x61, 0x62, 0x63] =
      "ba7816bf8f01cfea414140de5dae2223b00361a396177a9cb410ff61f20015ad" := by
  decide

/-! ### Content store state (storage.ts)

The add-on store (`storage/addons`) is a map from package-directory names
to file lists; the icon store (`storage/icons`) is a flat file list.  Both
are association lists whose update removes the old binding and prepends
the new one.  File and directory names are `List Char`. -/

/-- Decimal digit characters of `n`, most significant first, fuelled. -/
def natDigitsGo : Nat → Nat → List Char
  | 0, _ => []
  | fuel + 1, n =>
    if n < 10 then [Char.ofNat (48 + n)]
    else natDigitsGo fuel (n / 10) ++ [Char.ofNat (48 + n % 10)]

/-- Decimal rendering of a number, as JS template interpolation does. -/
def natDigits (n : Nat) : List Char := natDigitsGo (n + 1) n

/-- JS string `<` (lexicographic on code units; ASCII model). -/
def lexLtCh : List Char → List Char → Bool
  | [], [] => false
  | [], _ :: _ => true
  | _ :: _, [] => false
  | a :: as, b :: bs => if a < b then true else if b < a then false else lexLtCh as bs

/-- `endsWith` on character lists. -/
def endsWithCh (suf s : List Char) : Bool :=
  decide (s.drop (s.length - suf.length) = suf)

/-- Insert into a sorted list (ascending JS string order). -/
def insertSorted (x : List Char) : List (List Char) → List (List Char)
  | [] => [x]
  | y :: t => if !(lexLtCh y x) then x :: y :: t else y :: insertSorted x t

/-- Model of `Array.prototype.sort()` on file names (default string order). -/
def sortFiles : List (List Char) → List (List Char)
  | [] => []
  | x :: t => insertSorted x (sortFiles t)

/-- The content-store state: add-on directories and icon files. -/
structure Store where
  addons : List (List Char × List (List Char × List Nat))
  icons : List (List Char × List Nat)

/-- Directory lookup (`existsSync` + `readdir`). -/
def Store.findDir (st : Store) (dir : List Char) :
    Option (List (List Char × List Nat)) :=
  (st.addons.find? (fun e => e.1 == dir)).map Prod.snd

/-- File names of a directory; `[]` when the directory does not exist. -/
def Store.dirFileNames (st : Store) (dir : List Char) : List (List Char) :=
  ((st.findDir dir).getD []).map Prod.fst

/-- Write a file into a directory, creating the directory if needed and
overwriting a file of the same name. -/
def Store.writeAddonFile (st : Store) (dir fname : List Char)
    (bytes : List Nat) : Store :=
  let oldFiles := (st.findDir dir).getD []
  { st with addons :=
      (dir, (fname, bytes) :: oldFiles.filter (fun f => !(f.1 == fname))) ::
        st.addons.filter (fun e => !(e.1 == dir)) }

/-- Content of one file of one directory. -/
def Store.fileAt (st : Store) (dir fname : List Char) : Option (List Nat) :=
  match st.findDir dir with
  | none => none
  | some files => (files.find? (fun f => f.1 == fname)).map Prod.snd

/-- The package directory name `{id}-{sanitizedName}` (storage.ts 104-107). -/
def addonDirName (packageId : Nat) (packageName : String) : List Char :=
  natDigits packageId ++ '-' :: (sanitizeForFilesystem packageName).data

/-- The artifact file name `addon-{timestamp}.mcaddon` (storage.ts 113-114). -/
def addonFileName (timestamp : Nat) : List Char :=
  "addon-".data ++ natDigits timestamp ++ ".mcaddon".data

/-- The full path `storage/addons/{dir}/{file}` returned to callers. -/
def mkAddonPath (dir fname : List Char) : List Char :=
  "storage/addons/".data ++ dir ++ '/' :: fname

/-- Embedding of `saveAddon` (storage.ts 88-131): fail fast on the magic
check without touching disk, hash the buffer, then write
`addon-{now}.mcaddon` into the (lazily created) package directory.
`now` is the `Date.now()` reading, `writeOk` the success of `writeFile`
(a failed write changes nothing and the error propagates). -/
def saveAddon (st : Store) (packageId : Nat) (packageName : String)
    (fileBuffer : List Nat) (now : Nat) (writeOk : Bool) :
    Except String (List Char × String) × Store :=
  if !(validateMcaddonFile fileBuffer) then
    (Except.error "Invalid file format. Only .mcaddon files (ZIP format) are supported",
     st)
  else
    let dir := addonDirName packageId packageName
    let filename := addonFileName now
    let fileHash := sha256hex fileBuffer
    if writeOk then
      (Except.ok (mkAddonPath dir filename, fileHash),
       st.writeAddonFile dir filename fileBuffer)
    else
      (Except.error "write failed", st)

/-- Embedding of `getLatestAddonFile` (storage.ts 172-197): list the
package directory, keep `.mcaddon` files, sort, return the last. -/
def getLatestAddonFile (st : Store) (packageId : Nat) (packageName : String) :
    Option (List Char) :=
  let dir := addonDirName packageId packageName
  match st.findDir dir with
  | none => none
  | some files =>
    let addonFiles := (files.map Prod.fst).filter (endsWithCh ".mcaddon".data)
    if addonFiles.isEmpty then none
    else (sortFiles addonFiles).getLast?.map (mkAddonPath dir)

/-- Model of `calculateFileHash`: read the file, hash its content. -/
def calculateFileHash (st : Store) (dir fname : List Char) : Option String :=
  (st.fileAt dir fname).map sha256hex

/-- Embedding of `deleteAddon` (storage.ts 145-167): remove every file of
the package directory and the directory itself; no-op when absent. -/
def deleteAddon (st : Store) (packageId : Nat) (packageName : String) : Store :=
  { st with addons :=
      st.addons.filter (fun e => !(e.1 == addonDirName packageId packageName)) }

/-- The five icon extensions known to the store. -/
def iconExts : List (List Char) :=
  ["png".data, "jpg".data, "webp".data, "gif".data, "svg".data]

/-- The icon file name `{id}.{ext}`. -/
def iconFileName (packageId : Nat) (ext : List Char) : List Char :=
  natDigits packageId ++ '.' :: ext

/-- Embedding of `deleteIcon` (storage.ts 361-373): unlink `{id}.{ext}`
for every known extension; idempotent. -/
def deleteIcon (st : Store) (packageId : Nat) : Store :=
  { st with icons := st.icons.filter (fun e =>
      !(iconExts.any (fun ext => e.1 == iconFileName packageId ext))) }

/-- Icon-file lookup by name. -/
def Store.iconAt (st : Store) (fname : List Char) : Option (List Nat) :=
  (st.icons.find? (fun e => e.1 == fname)).map Prod.snd

/-- ASCII decoding of a byte buffer into a string. -/
def bytesToString (bs : List Nat) : String := ⟨bytesToChars bs⟩

/-- ASCII encoding of a string into bytes. -/
def stringToBytes (s : String) : List Nat := s.data.map Char.toNat

/-- Embedding of `saveIcon` (storage.ts 314-356): size gate, type sniff,
SVG sanitization, delete the old icon across all extensions, then write
`{id}.{extension}`. -/
def saveIcon (st : Store) (packageId : Nat) (iconBuffer : List Nat) :
    Except String (List Char × List Char) × Store :=
  if 2097152 < iconBuffer.length then
    (Except.error "Icon file too large. Maximum size is 2MB", st)
  else
    let typeInfo := validateIconType iconBuffer
    match typeInfo.valid, typeInfo.extension with
    | true, some ext =>
      let bufferToSave :=
        if ext = "svg" then stringToBytes (sanitizeSvg (bytesToString iconBuffer))
        else iconBuffer
      let fname := iconFileName packageId ext.data
      let st1 := deleteIcon st packageId
      (Except.ok (fname, "/icons/".data ++ fname),
       { st1 with icons := (fname, bufferToSave) ::
           st1.icons.filter (fun e => !(e.1 == fname)) })
    | _, _ =>
      (Except.error "Invalid icon format. Only PNG, JPEG, WebP, GIF, and SVG are supported",
       st)

/-! Sorting facts needed for `getLatestAddonFile`. -/

/-- Members of `insertSorted x s` are `x` or members of `s`. -/
theorem mem_insertSorted (x y : List Char) (s : List (List Char))
    (h : y ∈ insertSorted x s) : y = x ∨ y ∈ s := by
  induction s with
  | nil => rw [insertSorted] at h; simpa using h
  | cons z t ih =>
    rw [insertSorted] at h
    by_cases hc : !(lexLtCh z x)
    · rw [if_pos hc] at h
      rcases List.mem_cons.mp h with h | h
      · exact Or.inl h
      · exact Or.inr h
    · rw [if_neg hc] at h
      rcases List.mem_cons.mp h with h | h
      · exact Or.inr (by simp [h])
      · rcases ih h with h' | h'
        · exact Or.inl h'
        · exact Or.inr (by simp [h'])

/-- Members of `sortFiles l` are members of `l`. -/
theorem mem_sortFiles (y : List Char) (l : List (List Char))
    (h : y ∈ sortFiles l) : y ∈ l := by
  induction l with
  | nil => rw [sortFiles] at h; simp at h
  | cons x t ih =>
    rw [sortFiles] at h
    rcases mem_insertSorted x y (sortFiles t) h with h' | h'
    · simp [h']
    · exact List.mem_cons.mpr (Or.inr (ih h'))

/-- `insertSorted` never yields the empty list. -/
theorem insertSorted_ne_nil (x : List Char) (s : List (List Char)) :
    insertSorted x s ≠ [] := by
  cases s with
  | nil => rw [insertSorted]; simp
  | cons y t =>
    rw [insertSorted]
    by_cases hc : !(lexLtCh y x)
    · rw [if_pos hc]; simp
    · rw [if_neg hc]; simp

/-- Inserting a strict upper bound puts it last. -/
theorem insertSorted_getLast_max (x : List Char) (s : List (List Char))
    (h : ∀ y ∈ s, lexLtCh y x = true) :
    (insertSorted x s).getLast? = some x := by
  induction s with
  | nil => rw [insertSorted]; rfl
  | cons y t ih =>
    rw [insertSorted]
    have hy : lexLtCh y x = true := h y (by simp)
    rw [if_neg (by simp [hy])]
    have hne := insertSorted_ne_nil x t
    match hins : insertSorted x t with
    | [] => exact absurd hins hne
    | z :: t' =>
      rw [List.getLast?_cons_cons, ← hins]
      exact ih (fun y' hy' => h y' (by simp [hy']))

/-- Sorting a list whose head strictly dominates the tail puts the head
last. -/
theorem sortFiles_getLast_head_max (x : List Char) (t : List (List Char))
    (h : ∀ y ∈ t, lexLtCh y x = true) :
    (sortFiles (x :: t)).getLast? = some x := by
  rw [sortFiles]
  exact insertSorted_getLast_max x (sortFiles t)
    (fun y hy => h y (mem_sortFiles y t hy))

/-! Fixed-width decimal timestamps sort chronologically: the spec's
justification that the lexicographically greatest file is the most
recent one. -/

/-- `natDigitsGo` ignores the fuel once it exceeds the argument. -/
theorem natDigitsGo_fuel (fuel fuel' n : Nat) (h : n < fuel) (h' : n < fuel') :
    natDigitsGo fuel n = natDigitsGo fuel' n := by
  induction fuel generalizing fuel' n with
  | zero => omega
  | succ f ih =>
    match fuel', h' with
    | f' + 1, _ =>
      rw [natDigitsGo, natDigitsGo]
      by_cases h10 : n < 10
      · rw [if_pos h10, if_pos h10]
      · rw [if_neg h10, if_neg h10]
        have hdiv : n / 10 < n := Nat.div_lt_self (by omega) (by norm_num)
        rw [ih f' (n / 10) (by omega) (by omega)]

/-- The defining recursion of `natDigits`. -/
theorem natDigits_eq (n : Nat) :
    natDigits n = if n < 10 then [Char.ofNat (48 + n)]
                  else natDigits (n / 10) ++ [Char.ofNat (48 + n % 10)] := by
  show natDigitsGo (n + 1) n = _
  rw [natDigitsGo]
  by_cases h10 : n < 10
  · rw [if_pos h10, if_pos h10]
  · rw [if_neg h10, if_neg h10]
    have hdiv : n / 10 < n := Nat.div_lt_self (by omega) (by norm_num)
    rw [natDigitsGo_fuel n (n / 10 + 1) (n / 10) (by omega) (by omega)]
    rfl

/-- `natDigits` is never empty. -/
theorem natDigits_ne_nil (n : Nat) : natDigits n ≠ [] := by
  rw [natDigits_eq]
  by_cases h10 : n < 10
  · rw [if_pos h10]; simp
  · rw [if_neg h10]; simp

/-- Decimal digit characters compare like their digits. -/
theorem digitChar_lt (a b : Nat) (ha : a < 10) (hb : b < 10) (h : a < b) :
    Char.ofNat (48 + a) < Char.ofNat (48 + b) := by
  interval_cases a <;> interval_cases b <;> decide

/-- A shared prefix preserves the string order. -/
theorem lexLtCh_append_left (l p q : List Char) (h : lexLtCh p q = true) :
    lexLtCh (l ++ p) (l ++ q) = true := by
  induction l with
  | nil => simpa using h
  | cons c t ih =>
    show lexLtCh (c :: (t ++ p)) (c :: (t ++ q)) = true
    rw [lexLtCh, if_neg (lt_irrefl c), if_neg (lt_irrefl c)]
    exact ih

/-- If two equal-length strings already compare strictly, any suffixes
keep them strictly ordered. -/
theorem lexLtCh_append_of_lt (p q r s : List Char)
    (hlen : p.length = q.length) (h : lexLtCh p q = true) :
    lexLtCh (p ++ r) (q ++ s) = true := by
  induction p generalizing q with
  | nil =>
    match q, hlen with
    | [], _ => rw [lexLtCh] at h; exact absurd h (by simp)
  | cons x p' ih =>
    match q, hlen with
    | y :: q', hlen =>
      rw [lexLtCh] at h
      show lexLtCh (x :: (p' ++ r)) (y :: (q' ++ s)) = true
      rw [lexLtCh]
      by_cases hxy : x < y
      · rw [if_pos hxy]
      · rw [if_neg hxy] at h ⊢
        by_cases hyx : y < x
        · rw [if_pos hyx] at h; exact absurd h (by simp)
        · rw [if_neg hyx] at h ⊢
          exact ih q' (by simpa using hlen) h

/-- Fixed-width decimals sort numerically: if `t < n` and the decimal
renderings have equal width then `natDigits t` precedes `natDigits n`. -/
theorem natDigits_lexLt (n : Nat) : ∀ t, t < n →
    (natDigits t).length = (natDigits n).length →
    lexLtCh (natDigits t) (natDigits n) = true := by
  induction n using Nat.strong_induction_on with
  | _ n ih =>
    intro t hlt hlen
    by_cases hn10 : n < 10
    · have ht10 : t < 10 := by omega
      rw [natDigits_eq t, if_pos ht10, natDigits_eq n, if_pos hn10]
      rw [lexLtCh, if_pos (digitChar_lt t n ht10 hn10 hlt)]
    · have ht10 : ¬ t < 10 := by
        intro ht10
        rw [natDigits_eq t, if_pos ht10] at hlen
        rw [natDigits_eq n, if_neg hn10] at hlen
        simp only [List.length_singleton, List.length_append] at hlen
        have := natDigits_ne_nil (n / 10)
        have : 1 ≤ (natDigits (n / 10)).length := by
          cases hd : natDigits (n / 10) with
          | nil => exact absurd hd this
          | cons _ _ => simp [hd]
        omega
      rw [natDigits_eq t, if_neg ht10, natDigits_eq n, if_neg hn10]
      rw [natDigits_eq t, if_neg ht10, natDigits_eq n, if_neg hn10] at hlen
      simp only [List.length_append, List.length_singleton] at hlen
      have hlen' : (natDigits (t / 10)).length = (natDigits (n / 10)).length := by
        omega
      have hdivle : t / 10 ≤ n / 10 := Nat.div_le_div_right (by omega)
      rcases Nat.lt_or_ge (t / 10) (n / 10) with hdlt | hdge
      · exact lexLtCh_append_of_lt _ _ _ _ hlen'
          (ih (n / 10) (Nat.div_lt_self (by omega) (by norm_num)) (t / 10) hdlt hlen')
      · have hdeq : t / 10 = n / 10 := by omega
        rw [hdeq]
        apply lexLtCh_append_left
        have hmod : t % 10 < n % 10 := by omega
        rw [lexLtCh, if_pos (digitChar_lt _ _ (Nat.mod_lt _ (by norm_num))
          (Nat.mod_lt _ (by norm_num)) hmod)]

/-- Monotone fixed-width timestamps give lexicographically increasing
artifact file names. -/
theorem addonFileName_lexLt (t now : Nat) (hlt : t < now)
    (hlen : (natDigits t).length = (natDigits now).length) :
    lexLtCh (addonFileName t) (addonFileName now) = true := by
  unfold addonFileName
  rw [List.append_assoc, List.append_assoc]
  apply lexLtCh_append_left
  exact lexLtCh_append_of_lt _ _ _ _ hlen (natDigits_lexLt now t hlt hlen)

/-- A list ends with itself appended to anything. -/
theorem endsWithCh_append (l suf : List Char) : endsWithCh suf (l ++ suf) = true := by
  unfold endsWithCh
  rw [List.length_append]
  have harith : l.length + suf.length - suf.length = l.length := by omega
  rw [harith, List.drop_left]
  simp

/-- C6: round trip of the content store.  If the archive passes the ZIP
check and every `.mcaddon` file already in the package directory carries
an `addon-{t}.mcaddon` name whose timestamp `t` predates `now` at the
same decimal width (timestamps are fixed-width decimal and monotonically
increasing), then `saveAddon` returns the path of the file it writes
together with the SHA-256 of the buffer, `getLatestAddonFile` resolves to
exactly that path, and hashing the on-disk content at that path yields
the hash `saveAddon` returned. -/
theorem saveAddon_roundtrip (st : Store) (pid : Nat) (pname : String)
    (bytes : List Nat) (now : Nat)
    (hval : validateMcaddonFile bytes = true)
    (hclock : ∀ f ∈ st.dirFileNames (addonDirName pid pname),
      endsWithCh ".mcaddon".data f = true →
      ∃ t, f = addonFileName t ∧ t < now ∧
        (natDigits t).length = (natDigits now).length) :
    (saveAddon st pid pname bytes now true).1 =
      Except.ok (mkAddonPath (addonDirName pid pname) (addonFileName now),
        sha256hex bytes) ∧
    getLatestAddonFile (saveAddon st pid pname bytes now true).2 pid pname =
      some (mkAddonPath (addonDirName pid pname) (addonFileName now)) ∧
    calculateFileHash (saveAddon st pid pname bytes now true).2
      (addonDirName pid pname) (addonFileName now) = some (sha256hex bytes) := by
  have hsv : saveAddon st pid pname bytes now true =
      (Except.ok (mkAddonPath (addonDirName pid pname) (addonFileName now),
        sha256hex bytes),
       st.writeAddonFile (addonDirName pid pname) (addonFileName now) bytes) := by
    unfold saveAddon
    rw [hval]
    rfl
  rw [hsv]
  dsimp only
  have hfd : (st.writeAddonFile (addonDirName pid pname) (addonFileName now)
        bytes).findDir (addonDirName pid pname) =
      some ((addonFileName now, bytes) ::
        ((st.findDir (addonDirName pid pname)).getD []).filter
          (fun f => !(f.1 == addonFileName now))) := by
    unfold Store.writeAddonFile Store.findDir
    simp
  refine ⟨rfl, ?_, ?_⟩
  · simp only [getLatestAddonFile, hfd]
    simp only [List.map_cons]
    have hends : endsWithCh ".mcaddon".data (addonFileName now) = true := by
      unfold addonFileName
      exact endsWithCh_append _ _
    rw [List.filter_cons_of_pos hends]
    simp only [List.isEmpty_cons, Bool.false_eq_true, if_false]
    rw [sortFiles_getLast_head_max]
    · rfl
    · intro y hy
      have hy' := List.mem_filter.mp hy
      rcases List.mem_map.mp hy'.1 with ⟨e, he, rfl⟩
      have hemem : e ∈ (st.findDir (addonDirName pid pname)).getD [] :=
        (List.mem_filter.mp he).1
      have hdirmem : e.1 ∈ st.dirFileNames (addonDirName pid pname) := by
        unfold Store.dirFileNames
        exact List.mem_map.mpr ⟨e, hemem, rfl⟩
      rcases hclock e.1 hdirmem hy'.2 with ⟨t, hft, hlt, hlen⟩
      rw [hft]
      exact addonFileName_lexLt t now hlt hlen
  · simp only [calculateFileHash, Store.fileAt, hfd]
    simp

/-- C6 witness: the round-trip theorem at a concrete empty store. -/
theorem saveAddon_roundtrip_witness :
    getLatestAddonFile
        (saveAddon ⟨[], []⟩ 1 "Foo" [0x50, 0x4b, 0x03, 0x04] 1700000000000 true).2
        1 "Foo" =
      some (mkAddonPath (addonDirName 1 "Foo") (addonFileName 1700000000000)) ∧
    calculateFileHash
        (saveAddon ⟨[], []⟩ 1 "Foo" [0x50, 0x4b, 0x03, 0x04] 1700000000000 true).2
        (addonDirName 1 "Foo") (addonFileName 1700000000000) =
      some (sha256hex [0x50, 0x4b, 0x03, 0x04]) :=
  (saveAddon_roundtrip ⟨[], []⟩ 1 "Foo" [0x50, 0x4b, 0x03, 0x04] 1700000000000
    (by decide)
    (by intro f hf; simp [Store.dirFileNames, Store.findDir] at hf)).2

/-! ### Catalog state (db_controller.ts) -/

/-- One row of the `packages` table (the columns the claims involve). -/
structure PackageRow where
  id : Nat
  name : String
  description : String
  author_id : Nat
  file_path : String
  file_hash : String
  version : String
  downloads : Nat
  icon_url : Option String
  kofi_url : Option String
  long_description : Option String
  youtube_url : Option String
  discord_url : Option String
  category_id : Option Nat
deriving Repr, DecidableEq

/-- One row of the `download_history` table; dates are modelled as day
numbers (the code keys rows by ISO `YYYY-MM-DD` strings, one per
calendar day, with a unique constraint on `(package_id, date)`). -/
structure HistRow where
  package_id : Nat
  date : Nat
  download_count : Nat
deriving Repr, DecidableEq

/-- One row of the `tags` table. -/
structure TagRow where
  id : Nat
  name : String
  slug : String
deriving Repr, DecidableEq

/-- The catalog state: the tables the claims touch, plus the
`AUTOINCREMENT` counter backing `packages.id`. -/
structure DBState where
  packages : List PackageRow
  history : List HistRow
  tags : List TagRow
  nextId : Nat
deriving Repr

namespace DB

/-- The JS `x || null` collapse on an optional string column. -/
def orNull : Option String → Option String
  | some s => if s = "" then none else some s
  | none => none

/-- `SELECT * FROM packages WHERE name = …` (first row). -/
def getPackage (db : DBState) (name : String) : Option PackageRow :=
  db.packages.find? (fun p => p.name == name)

/-- `SELECT * FROM packages WHERE id = …` (first row). -/
def getPackageById (db : DBState) (packageId : Nat) : Option PackageRow :=
  db.packages.find? (fun p => p.id == packageId)

/-- `SELECT * FROM tags WHERE slug = …`. -/
def getTagBySlug (db : DBState) (slug : String) : Option TagRow :=
  db.tags.find? (fun t => t.slug == slug)

/-- Embedding of `DB.createPackage` (db_controller.ts 365-387):
`INSERT INTO packages … RETURNING *`, with the `x || null` collapses on
the optional columns (`categoryId || null` also collapses the number 0).
The fresh `AUTOINCREMENT` id is `nextId`. -/
def createPackage (db : DBState) (name description : String) (authorId : Nat)
    (filePath fileHash version : String)
    (iconUrl kofiUrl longDescription youtubeUrl discordUrl : Option String)
    (categoryId : Option Nat) : DBState × PackageRow :=
  let row : PackageRow :=
    { id := db.nextId, name := name, description := description,
      author_id := authorId, file_path := filePath, file_hash := fileHash,
      version := version, downloads := 0,
      icon_url := orNull iconUrl, kofi_url := orNull kofiUrl,
      long_description := orNull longDescription,
      youtube_url := orNull youtubeUrl, discord_url := orNull discordUrl,
      category_id := match categoryId with
        | some n => if n = 0 then none else some n
        | none => none }
  ({ db with packages := db.packages ++ [row], nextId := db.nextId + 1 }, row)

/-- Embedding of `DB.deletePackage` (db_controller.ts 444-446). -/
def deletePackage (db : DBState) (packageId : Nat) : DBState :=
  { db with packages := db.packages.filter (fun p => !(p.id == packageId)) }

/-- Embedding of `DB.incrementDownloads` (db_controller.ts 448-460):
upsert the `(package, today)` history row — insert with count 1, or on
conflict increment — then separately bump the package's aggregate
counter. -/
def incrementDownloads (db : DBState) (packageId : Nat) (today : Nat) : DBState :=
  let history :=
    if db.history.any (fun h => h.package_id == packageId && h.date == today) then
      db.history.map (fun h =>
        if h.package_id == packageId && h.date == today then
          { h with download_count := h.download_count + 1 }
        else h)
    else
      db.history ++ [{ package_id := packageId, date := today, download_count := 1 }]
  { db with
    history := history,
    packages := db.packages.map (fun p =>
      if p.id == packageId then { p with downloads := p.downloads + 1 } else p) }

/-- Embedding of `DB.updatePackage` (db_controller.ts 410-442).  The
outer `Option` is argument presence (`undefined` vs provided), the inner
`Option` is SQL null.  Provided nullable strings collapse falsy values to
null (`x || null`); `name`/`description`/`version` and `categoryId` are
stored as given; absent arguments keep the current column value. -/
def updatePackage (db : DBState) (packageId : Nat)
    (name description version : Option String)
    (iconUrl kofiUrl longDescription youtubeUrl discordUrl : Option (Option String))
    (categoryId : Option (Option Nat)) : DBState × List PackageRow :=
  match db.packages.find? (fun p => p.id == packageId) with
  | none => (db, [])
  | some current =>
    let newRow : PackageRow :=
      { current with
        name := name.getD current.name,
        description := description.getD current.description,
        version := version.getD current.version,
        icon_url := match iconUrl with
          | some v => orNull v
          | none => current.icon_url,
        kofi_url := match kofiUrl with
          | some v => orNull v
          | none => current.kofi_url,
        long_description := match longDescription with
          | some v => orNull v
          | none => current.long_description,
        youtube_url := match youtubeUrl with
          | some v => orNull v
          | none => current.youtube_url,
        discord_url := match discordUrl with
          | some v => orNull v
          | none => current.discord_url,
        category_id := match categoryId with
          | some v => v
          | none => current.category_id }
    ({ db with packages := db.packages.map (fun p =>
        if p.id == packageId then newRow else p) },
     [newRow])

/-- `COALESCE(dh.download_count, 0)` for one `(package, date)` key. -/
def histCount (db : DBState) (packageId : Nat) (date : Nat) : Nat :=
  ((db.history.find? (fun h => h.package_id == packageId && h.date == date)).map
    (fun h => h.download_count)).getD 0

/-- The history rows of one `(package, date)` key. -/
def histRows (db : DBState) (packageId : Nat) (date : Nat) : List HistRow :=
  db.history.filter (fun h => h.package_id == packageId && h.date == date)

/-- The aggregate `downloads` column of one package. -/
def pkgDownloads (db : DBState) (packageId : Nat) : Option Nat :=
  (getPackageById db packageId).map (fun p => p.downloads)

/-- Embedding of `DB.getDailyDownloads` (db_controller.ts 707-737): the
recursive CTE seeds `today - (days-1)` unconditionally and appends
`+1 day` rows while below `today`; the left join zero-fills via
`COALESCE`; `ORDER BY date DESC` reverses the ascending generation. -/
def getDailyDownloads (db : DBState) (packageId : Nat) (today : Nat)
    (days : Nat) : List (Nat × Nat) :=
  let startDate := today - (days - 1)
  let dates := startDate ::
    (List.range (today - startDate)).map (fun i => startDate + 1 + i)
  (dates.map (fun d => (d, histCount db packageId d))).reverse

end DB

/-- `find?` commutes with a map that preserves the predicate. -/
theorem find?_map_pres {α : Type} (p : α → Bool) (f : α → α) (l : List α)
    (hf : ∀ a, p (f a) = p a) : (l.map f).find? p = (l.find? p).map f := by
  induction l with
  | nil => simp
  | cons a t ih =>
    by_cases hpa : p a = true
    · rw [List.map_cons, List.find?_cons_of_pos _ (by rw [hf]; exact hpa),
        List.find?_cons_of_pos _ hpa, Option.map_some']
    · rw [List.map_cons, List.find?_cons_of_neg _ (by rw [hf]; exact hpa),
        List.find?_cons_of_neg _ (by exact hpa), ih]

/-- `find?` skips a prefix containing no match. -/
theorem find?_append_none {α : Type} (p : α → Bool) (l₁ l₂ : List α)
    (h : l₁.find? p = none) : (l₁ ++ l₂).find? p = l₂.find? p := by
  induction l₁ with
  | nil => simp
  | cons a t ih =>
    by_cases hpa : p a = true
    · rw [List.find?_cons_of_pos _ hpa] at h; exact absurd h (by simp)
    · rw [List.find?_cons_of_neg _ hpa] at h
      rw [List.cons_append, List.find?_cons_of_neg _ hpa, ih h]

/-- The aggregate counter rises by exactly one per `incrementDownloads`
call, whenever the package row exists (and stays absent otherwise). -/
theorem pkgDownloads_increment (db : DBState) (packageId today : Nat) :
    DB.pkgDownloads (DB.incrementDownloads db packageId today) packageId =
      (DB.pkgDownloads db packageId).map (· + 1) := by
  unfold DB.pkgDownloads DB.getPackageById DB.incrementDownloads
  rw [find?_map_pres _ _ _ (fun a => by
    by_cases ha : a.id = packageId
    · simp [ha]
    · simp [ha])]
  cases hf : db.packages.find? (fun p => p.id == packageId) with
  | none => rfl
  | some r =>
    have hr : r.id = packageId := by
      have := List.find?_some hf
      simpa using this
    simp [hr]

/-- C7: with no DownloadHistory row for `(id, today)` yet, one
`incrementDownloads` call inserts that row with count 1, a second call on
the same day increments it to 2 leaving exactly one row for the key, and
each call separately raises the package's aggregate counter by exactly
one (two calls: by exactly two). -/
theorem incrementDownloads_upsert (db : DBState) (packageId today : Nat)
    (hnone : db.history.find?
      (fun h => h.package_id == packageId && h.date == today) = none) :
    DB.pkgDownloads (DB.incrementDownloads db packageId today) packageId =
      (DB.pkgDownloads db packageId).map (· + 1) ∧
    DB.histCount (DB.incrementDownloads db packageId today) packageId today = 1 ∧
    DB.histRows
        (DB.incrementDownloads (DB.incrementDownloads db packageId today)
          packageId today) packageId today =
      [{ package_id := packageId, date := today, download_count := 2 }] ∧
    DB.pkgDownloads
        (DB.incrementDownloads (DB.incrementDownloads db packageId today)
          packageId today) packageId =
      (DB.pkgDownloads db packageId).map (· + 2) := by
  have hall : ∀ h ∈ db.history,
      ¬((h.package_id == packageId && h.date == today) = true) :=
    fun h hm => by simpa using List.find?_eq_none.mp hnone h hm
  have hany : db.history.any
      (fun h => h.package_id == packageId && h.date == today) = false := by
    rw [List.any_eq_false]
    exact hall
  have hnew : (fun h : HistRow => h.package_id == packageId && h.date == today)
      { package_id := packageId, date := today, download_count := 1 } = true := by
    simp
  have hhist1 : (DB.incrementDownloads db packageId today).history =
      db.history ++ [{ package_id := packageId, date := today, download_count := 1 }] := by
    unfold DB.incrementDownloads
    rw [if_neg (by rw [hany]; exact Bool.false_ne_true)]
  refine ⟨pkgDownloads_increment db packageId today, ?_, ?_, ?_⟩
  · unfold DB.histCount
    rw [hhist1, find?_append_none _ _ _ hnone]
    simp [List.find?_cons_of_pos _ hnew]
  · obtain ⟨db1, hdb1⟩ : ∃ x, DB.incrementDownloads db packageId today = x := ⟨_, rfl⟩
    rw [hdb1] at hhist1 ⊢
    unfold DB.histRows
    have hhist2 : (DB.incrementDownloads db1 packageId today).history =
        db.history ++ [{ package_id := packageId, date := today, download_count := 2 }] := by
      unfold DB.incrementDownloads
      rw [hhist1]
      rw [if_pos (by
        rw [List.any_eq_true]
        exact ⟨_, by simp, hnew⟩)]
      show List.map _ (db.history ++
        [{ package_id := packageId, date := today, download_count := 1 }]) = _
      rw [List.map_append]
      congr 1
      · have hmc : List.map (fun h : HistRow =>
            if h.package_id == packageId && h.date == today then
              { h with download_count := h.download_count + 1 }
            else h) db.history = List.map id db.history :=
          List.map_congr_left (fun a ha => by rw [if_neg (hall a ha)]; rfl)
        rw [hmc, List.map_id]
      · simp
    rw [hhist2, List.filter_append]
    rw [List.filter_eq_nil_iff.mpr hall, List.nil_append]
    simp
  · rw [pkgDownloads_increment, pkgDownloads_increment, Option.map_map]
    rfl

/-- A concrete package row used by witnesses. -/
def samplePkg : PackageRow where
  id := 5
  name := "Foo"
  description := ""
  author_id := 1
  file_path := ""
  file_hash := ""
  version := "1.0.0"
  downloads := 7
  icon_url := none
  kofi_url := some "https://ko-fi.com/foo"
  long_description := none
  youtube_url := none
  discord_url := none
  category_id := none

/-- A concrete one-package database state used by witnesses. -/
def sampleDB : DBState := ⟨[samplePkg], [], [], 6⟩

/-- C7 witness: the two-call scenario on a concrete one-package state. -/
theorem incrementDownloads_upsert_witness :
    DB.histRows
        (DB.incrementDownloads (DB.incrementDownloads sampleDB 5 20000) 5 20000)
        5 20000 =
      [{ package_id := 5, date := 20000, download_count := 2 }] ∧
    DB.pkgDownloads
        (DB.incrementDownloads (DB.incrementDownloads sampleDB 5 20000) 5 20000)
        5 =
      (DB.pkgDownloads sampleDB 5).map (· + 2) :=
  (incrementDownloads_upsert sampleDB 5 20000 (by decide)).2.2

/-- Indexing the generated ascending date sequence. -/
theorem dateSeq_getElem (S k j : Nat) (hj : j ≤ k) :
    (S :: (List.range k).map (fun i => S + 1 + i))[j]? = some (S + j) := by
  match j with
  | 0 => simp
  | j' + 1 =>
    simp only [List.getElem?_cons_succ]
    rw [List.getElem?_map]
    rw [List.getElem?_range (by omega)]
    simp only [Option.map_some']
    have harith : S + 1 + j' = S + (j' + 1) := by omega
    rw [harith]

/-- C8: for `1 ≤ days ≤ today + 1`, `getDailyDownloads` returns exactly
`days` rows, one per calendar day from `today` back `days - 1` days,
ordered most-recent-first; row `i` carries date `today - i` and the
recorded count for that day, zero when no history row exists. -/
theorem getDailyDownloads_series (db : DBState) (packageId today days : Nat)
    (h1 : 1 ≤ days) (h2 : days ≤ today + 1) :
    (DB.getDailyDownloads db packageId today days).length = days ∧
    ∀ i, i < days →
      (DB.getDailyDownloads db packageId today days)[i]? =
        some (today - i, DB.histCount db packageId (today - i)) := by
  have hk : today - (today - (days - 1)) = days - 1 := by omega
  constructor
  · simp only [DB.getDailyDownloads, List.length_reverse, List.length_map,
      List.length_cons, List.length_range]
    omega
  · intro i hi
    simp only [DB.getDailyDownloads]
    rw [List.getElem?_reverse (by
      simp only [List.length_map, List.length_cons, List.length_range]
      omega)]
    simp only [List.length_map, List.length_cons, List.length_range, hk]
    rw [List.getElem?_map]
    have hidx : days - 1 + 1 - 1 - i = days - 1 - i := by omega
    rw [hidx]
    rw [dateSeq_getElem _ _ _ (by omega)]
    simp only [Option.map_some']
    have hdate : today - (days - 1) + (days - 1 - i) = today - i := by omega
    rw [hdate]

/-- C8 witness: the series for a package downloaded only yesterday. -/
theorem getDailyDownloads_series_witness :
    (DB.getDailyDownloads ⟨[samplePkg], [⟨5, 19999, 3⟩], [], 6⟩ 5 20000 3).length = 3 ∧
    ∀ i, i < 3 →
      (DB.getDailyDownloads ⟨[samplePkg], [⟨5, 19999, 3⟩], [], 6⟩ 5 20000 3)[i]? =
        some (20000 - i,
          DB.histCount ⟨[samplePkg], [⟨5, 19999, 3⟩], [], 6⟩ 5 (20000 - i)) :=
  getDailyDownloads_series ⟨[samplePkg], [⟨5, 19999, 3⟩], [], 6⟩ 5 20000 3
    (by decide) (by decide)

/-- C9: `updatePackage` distinguishes omission from explicit null.  For
every nullable optional column: an absent argument leaves the stored
value unchanged, an explicit null clears it; `name`, `description` and
`version` are likewise kept when absent, and the identity, authorship,
storage and downloads columns are never touched. -/
theorem updatePackage_null_vs_omitted (db : DBState) (packageId : Nat)
    (name description version : Option String)
    (iconUrl kofiUrl longDescription youtubeUrl discordUrl : Option (Option String))
    (categoryId : Option (Option Nat)) (current : PackageRow)
    (hcur : DB.getPackageById db packageId = some current) :
    ∃ r, DB.getPackageById
        (DB.updatePackage db packageId name description version iconUrl kofiUrl
          longDescription youtubeUrl discordUrl categoryId).1 packageId = some r ∧
      (kofiUrl = none → r.kofi_url = current.kofi_url) ∧
      (kofiUrl = some none → r.kofi_url = none) ∧
      (iconUrl = none → r.icon_url = current.icon_url) ∧
      (iconUrl = some none → r.icon_url = none) ∧
      (longDescription = none → r.long_description = current.long_description) ∧
      (longDescription = some none → r.long_description = none) ∧
      (youtubeUrl = none → r.youtube_url = current.youtube_url) ∧
      (youtubeUrl = some none → r.youtube_url = none) ∧
      (discordUrl = none → r.discord_url = current.discord_url) ∧
      (discordUrl = some none → r.discord_url = none) ∧
      (categoryId = none → r.category_id = current.category_id) ∧
      (categoryId = some none → r.category_id = none) ∧
      (name = none → r.name = current.name) ∧
      (description = none → r.description = current.description) ∧
      (version = none → r.version = current.version) ∧
      r.id = current.id ∧ r.author_id = current.author_id ∧
      r.file_path = current.file_path ∧ r.file_hash = current.file_hash ∧
      r.downloads = current.downloads := by
  unfold DB.getPackageById at hcur
  have hid : current.id = packageId := by
    have := List.find?_some hcur
    simpa using this
  unfold DB.getPackageById
  simp only [DB.updatePackage, hcur]
  rw [find?_map_pres _ _ _ (fun a => by
    by_cases ha : (a.id == packageId) = true
    · rw [if_pos ha]
      simp [hid, ha]
    · rw [if_neg ha])]
  rw [hcur, Option.map_some']
  rw [if_pos (by simp [hid])]
  refine ⟨_, rfl, ?_, ?_, ?_, ?_, ?_, ?_, ?_, ?_, ?_, ?_, ?_, ?_, ?_, ?_, ?_,
    ?_, ?_, ?_, ?_, ?_⟩
  all_goals (intros; subst_vars; rfl)

/-- C9 witness: an explicit-null update clears the stored Ko-fi URL of a
concrete row; the other arguments are omitted and keep their values. -/
theorem updatePackage_null_vs_omitted_witness :
    ∃ r, DB.getPackageById
        (DB.updatePackage sampleDB 5 none none none none (some none)
          none none none none).1 5 = some r ∧
      ((some none : Option (Option String)) = none → r.kofi_url = samplePkg.kofi_url) ∧
      ((some none : Option (Option String)) = some none → r.kofi_url = none) ∧
      ((none : Option (Option String)) = none → r.icon_url = samplePkg.icon_url) ∧
      ((none : Option (Option String)) = some none → r.icon_url = none) ∧
      ((none : Option (Option String)) = none →
        r.long_description = samplePkg.long_description) ∧
      ((none : Option (Option String)) = some none → r.long_description = none) ∧
      ((none : Option (Option String)) = none → r.youtube_url = samplePkg.youtube_url) ∧
      ((none : Option (Option String)) = some none → r.youtube_url = none) ∧
      ((none : Option (Option String)) = none → r.discord_url = samplePkg.discord_url) ∧
      ((none : Option (Option String)) = some none → r.discord_url = none) ∧
      ((none : Option (Option Nat)) = none → r.category_id = samplePkg.category_id) ∧
      ((none : Option (Option Nat)) = some none → r.category_id = none) ∧
      ((none : Option String) = none → r.name = samplePkg.name) ∧
      ((none : Option String) = none → r.description = samplePkg.description) ∧
      ((none : Option String) = none → r.version = samplePkg.version) ∧
      r.id = samplePkg.id ∧ r.author_id = samplePkg.author_id ∧
      r.file_path = samplePkg.file_path ∧ r.file_hash = samplePkg.file_hash ∧
      r.downloads = samplePkg.downloads :=
  updatePackage_null_vs_omitted sampleDB 5 none none none none (some none)
    none none none none samplePkg (by decide)

/-! ### Ingestion orchestration: the `POST /packages` handler (index.ts)

The handler is a pure state-passing function over the catalog and the
content store.  `authorId` is the authenticated actor, `now` the clock,
`archiveWriteOk` the success of the archive `writeFile` (false simulates
a disk-full failure after the catalog insert).  Validation-error
branches carry the source's message where a claim depends on it; other
message texts are abbreviated. -/

/-- JS truthiness of an optional string (`undefined` and `""` are falsy). -/
def truthy : Option String → Bool
  | some s => s ≠ ""
  | none => false

/-- `x || undefined` on an optional string. -/
def orUndef (v : Option String) : Option String :=
  if truthy v then v else none

/-- A character of `[a-zA-Z0-9_-]` (the package-name allow-list). -/
def isNameChar (c : Char) : Bool :=
  ('A' ≤ c && c ≤ 'Z') || ('a' ≤ c && c ≤ 'z') || ('0' ≤ c && c ≤ '9') ||
  c = '_' || c = '-'

/-- `PACKAGE_NAME_REGEX.test`: `/^[a-zA-Z0-9_-]{1,64}$/`. -/
def packageNameRegexTest (s : String) : Bool :=
  1 ≤ s.length && s.length ≤ 64 && s.data.all isNameChar

/-- Embedding of `validatePackageName` (index.ts 158-175). -/
def validatePackageName (name : String) : Bool :=
  if name.length < 1 then false
  else if 64 < name.length then false
  else packageNameRegexTest name

/-- A decimal digit character. -/
def isDigitCh (c : Char) : Bool := '0' ≤ c && c ≤ '9'

/-- Embedding of `validateVersion` (index.ts 178-189):
`/^\d+\.\d+\.\d+$/`, with absent versions valid (they default later). -/
def validateVersion (version : String) : Bool :=
  if version = "" then true
  else
    let parts := version.split (fun c => c = '.')
    parts.length = 3 && parts.all (fun p => p ≠ "" && p.data.all isDigitCh)

/-- Consume an exact literal prefix. -/
def dropLit (lit s : List Char) : Option (List Char) :=
  if s.take lit.length = lit then some (s.drop lit.length) else none

/-- Consume `https?:\/\/` (the alternatives are mutually exclusive, so the
greedy JS match is deterministic). -/
def dropScheme (s : List Char) : Option (List Char) :=
  match dropLit "https://".data s with
  | some r => some r
  | none => dropLit "http://".data s

/-- Consume the optional `(www\.)?` (greedy; no later backtracking can
succeed where the greedy choice fails, since `www.` is disjoint from the
host literals that follow). -/
def dropWww (s : List Char) : List Char :=
  match dropLit "www.".data s with
  | some r => r
  | none => s

/-- A character of `[a-zA-Z0-9_]`. -/
def isWordCh (c : Char) : Bool :=
  ('A' ≤ c && c ≤ 'Z') || ('a' ≤ c && c ≤ 'z') || ('0' ≤ c && c ≤ '9') || c = '_'

/-- A character of `[a-zA-Z0-9_-]`. -/
def isWordDashCh (c : Char) : Bool := isWordCh c || c = '-'

/-- `kofiUrlPattern.test`: `/^https?:\/\/(www\.)?ko-fi\.com\/[a-zA-Z0-9_]+\/?$/`. -/
def kofiUrlTest (url : String) : Bool :=
  match dropScheme url.data with
  | none => false
  | some r1 =>
    match dropLit "ko-fi.com/".data (dropWww r1) with
    | none => false
    | some r3 =>
      let core := if r3.getLast? = some '/' then r3.dropLast else r3
      !core.isEmpty && core.all isWordCh

/-- `youtubeUrlPattern.test`:
`/^https?:\/\/(www\.)?(youtube\.com\/watch\?v=|youtu\.be\/)[a-zA-Z0-9_-]+/`
(no end anchor: one allow-listed character suffices). -/
def youtubeUrlTest (url : String) : Bool :=
  match dropScheme url.data with
  | none => false
  | some r1 =>
    let r2 := dropWww r1
    let r3 := match dropLit "youtube.com/watch?v=".data r2 with
      | some r => some r
      | none => dropLit "youtu.be/".data r2
    match r3 with
    | none => false
    | some rest =>
      match rest with
      | [] => false
      | c :: _ => isWordDashCh c

/-- `discordUrlPattern.test`:
`/^https?:\/\/(www\.)?(discord\.(gg|com)\/|discordapp\.com\/invite\/)[a-zA-Z0-9_-]+/`. -/
def discordUrlTest (url : String) : Bool :=
  match dropScheme url.data with
  | none => false
  | some r1 =>
    let r2 := dropWww r1
    let r3 := match dropLit "discord.gg/".data r2 with
      | some r => some r
      | none => match dropLit "discord.com/".data r2 with
        | some r => some r
        | none => dropLit "discordapp.com/invite/".data r2
    match r3 with
    | none => false
    | some rest =>
      match rest with
      | [] => false
      | c :: _ => isWordDashCh c

/-- `category.trim().toLowerCase()`. -/
def normalizeSlug (s : String) : String :=
  ⟨(trimChars s.data).map toLowerCh⟩

/-- Category resolution of the handler (index.ts 1762-1772 for create):
absent or empty category means "no category"; a provided category must
resolve by slug or the request is rejected (`none`). -/
def resolveCategory (db : DBState) (category : Option String) :
    Option (Option Nat) :=
  if truthy category then
    match DB.getTagBySlug db (normalizeSlug (category.getD "")) with
    | none => none
    | some tag => some (some tag.id)
  else some none

/-- `MAX_FILE_SIZE` = 200 MB. -/
def MAX_FILE_SIZE : Nat := 209715200

/-- The request fields of `POST /packages`. -/
structure CreateRequest where
  name : Option String
  description : Option String
  version : Option String
  kofiUrl : Option String
  longDescription : Option String
  youtubeUrl : Option String
  discordUrl : Option String
  category : Option String
  fileBuffer : Option (List Nat)
  iconBuffer : Option (List Nat)

/-- Handler outcomes (the HTTP statuses the claims distinguish). -/
inductive CreateResult
  | badRequest (msg : String)
  | conflict
  | internalError
  | created (packageId : Nat)
deriving Repr, DecidableEq

/-- Embedding of the `POST /packages` handler (index.ts 1610-1851), in
source order: name presence and pattern, version pattern, file presence,
size ceiling, ZIP magic, duplicate name, external-link patterns and
category existence; then the catalog insert (placeholder path and hash),
the archive write keyed by the fresh id with its compensating rollback
(delete the inserted row and any icon) on failure, and the best-effort
icon save whose failure is swallowed. -/
def createPackageHandler (db : DBState) (st : Store) (req : CreateRequest)
    (authorId now : Nat) (archiveWriteOk : Bool) :
    CreateResult × DBState × Store :=
  match req.name with
  | none => (CreateResult.badRequest "Package name is required", db, st)
  | some name =>
    if name = "" then (CreateResult.badRequest "Package name is required", db, st)
    else if !(validatePackageName name) then
      (CreateResult.badRequest "invalid package name", db, st)
    else if truthy req.version && !(validateVersion (req.version.getD "")) then
      (CreateResult.badRequest "invalid version", db, st)
    else
      match req.fileBuffer with
      | none => (CreateResult.badRequest "Package file is required", db, st)
      | some fileBuffer =>
        if MAX_FILE_SIZE < fileBuffer.length then
          (CreateResult.badRequest "File too large", db, st)
        else if !(validateMcaddonFile fileBuffer) then
          (CreateResult.badRequest
            "Invalid file format. Only .mcaddon files (ZIP format) are supported",
           db, st)
        else
          match DB.getPackage db name with
          | some _ => (CreateResult.conflict, db, st)
          | none =>
            if truthy req.kofiUrl && !(kofiUrlTest (req.kofiUrl.getD "")) then
              (CreateResult.badRequest "Invalid Ko-fi URL", db, st)
            else if truthy req.youtubeUrl &&
                !(youtubeUrlTest (req.youtubeUrl.getD "")) then
              (CreateResult.badRequest "Invalid YouTube URL", db, st)
            else if truthy req.discordUrl &&
                !(discordUrlTest (req.discordUrl.getD "")) then
              (CreateResult.badRequest "Invalid Discord URL", db, st)
            else
              match resolveCategory db req.category with
              | none => (CreateResult.badRequest "Category not found", db, st)
              | some categoryId =>
                let ins := DB.createPackage db name (req.description.getD "")
                  authorId "" ""
                  (if truthy req.version then req.version.getD "" else "1.0.0")
                  none (orUndef req.kofiUrl) (orUndef req.longDescription)
                  (orUndef req.youtubeUrl) (orUndef req.discordUrl) categoryId
                let packageId := ins.2.id
                if packageId = 0 then (CreateResult.internalError, ins.1, st)
                else
                  match saveAddon st packageId name fileBuffer now archiveWriteOk with
                  | (Except.error _, st1) =>
                    (CreateResult.internalError,
                     DB.deletePackage ins.1 packageId, deleteIcon st1 packageId)
                  | (Except.ok _, st1) =>
                    match req.iconBuffer with
                    | none => (CreateResult.created packageId, ins.1, st1)
                    | some iconBuffer =>
                      match saveIcon st1 packageId iconBuffer with
                      | (Except.error _, st2) =>
                        (CreateResult.created packageId, ins.1, st2)
                      | (Except.ok iconRes, st2) =>
                        (CreateResult.created packageId,
                         (DB.updatePackage ins.1 packageId none none none
                           (some (some ⟨iconRes.2⟩)) none none none none none).1,
                         st2)

/-- C2: when the metadata gates pass but the archive buffer does not
start with the ZIP magic `50 4B 03 04`, the handler returns the
InvalidFormat error with the catalog and the content store untouched; in
particular, if no package of the requested name existed before, none
exists afterwards. -/
theorem createPackage_bad_magic_no_mutation (db : DBState) (st : Store)
    (req : CreateRequest) (authorId now : Nat) (writeOk : Bool) (n : String)
    (buf : List Nat)
    (hname : req.name = some n) (hne : n ≠ "")
    (hvalid : validatePackageName n = true)
    (hver : (truthy req.version && !(validateVersion (req.version.getD ""))) = false)
    (hfile : req.fileBuffer = some buf)
    (hsize : buf.length ≤ MAX_FILE_SIZE)
    (hmagic : validateMcaddonFile buf = false) :
    createPackageHandler db st req authorId now writeOk =
      (CreateResult.badRequest
        "Invalid file format. Only .mcaddon files (ZIP format) are supported",
       db, st) ∧
    (DB.getPackage db n = none →
      DB.getPackage (createPackageHandler db st req authorId now writeOk).2.1 n =
        none) := by
  have hrun : createPackageHandler db st req authorId now writeOk =
      (CreateResult.badRequest
        "Invalid file format. Only .mcaddon files (ZIP format) are supported",
       db, st) := by
    simp only [createPackageHandler, hname, hfile]
    rw [if_neg hne, if_neg (by simp [hvalid]), if_neg (by simp [hver]),
      if_neg (Nat.not_lt.mpr hsize), if_pos (by simp [hmagic])]
  refine ⟨hrun, ?_⟩
  intro h
  rw [hrun]
  exact h

/-- C2 witness: `createPackage({name:"Bad"}, "not a zip")` on a concrete
state. -/
theorem createPackage_bad_magic_no_mutation_witness :
    createPackageHandler sampleDB ⟨[], []⟩
        ⟨some "Bad", none, none, none, none, none, none, none,
          some (stringToBytes "not a zip"), none⟩ 1 1700000000000 true =
      (CreateResult.badRequest
        "Invalid file format. Only .mcaddon files (ZIP format) are supported",
       sampleDB, ⟨[], []⟩) :=
  (createPackage_bad_magic_no_mutation sampleDB ⟨[], []⟩
    ⟨some "Bad", none, none, none, none, none, none, none,
      some (stringToBytes "not a zip"), none⟩ 1 1700000000000 true "Bad"
    (stringToBytes "not a zip") rfl (by decide) (by decide) (by decide) rfl
    (by decide) (by decide)).1

/-- C1: when every validation gate passes and the archive write fails
after the catalog insert, the handler performs the compensating delete:
it reports an internal error, the just-inserted row is gone (no package
with the requested name or the fresh id remains), and no icon file for
the fresh id exists in the store. -/
theorem createPackage_rollback_on_write_failure (db : DBState) (st : Store)
    (req : CreateRequest) (authorId now : Nat) (n : String) (buf : List Nat)
    (catId : Option Nat)
    (hname : req.name = some n) (hne : n ≠ "")
    (hvalid : validatePackageName n = true)
    (hver : (truthy req.version && !(validateVersion (req.version.getD ""))) = false)
    (hfile : req.fileBuffer = some buf)
    (hsize : buf.length ≤ MAX_FILE_SIZE)
    (hmagic : validateMcaddonFile buf = true)
    (hdup : DB.getPackage db n = none)
    (hkofi : (truthy req.kofiUrl && !(kofiUrlTest (req.kofiUrl.getD ""))) = false)
    (hyt : (truthy req.youtubeUrl && !(youtubeUrlTest (req.youtubeUrl.getD ""))) = false)
    (hdc : (truthy req.discordUrl && !(discordUrlTest (req.discordUrl.getD ""))) = false)
    (hcat : resolveCategory db req.category = some catId)
    (hid : db.nextId ≠ 0) :
    (createPackageHandler db st req authorId now false).1 =
      CreateResult.internalError ∧
    DB.getPackage (createPackageHandler db st req authorId now false).2.1 n =
      none ∧
    DB.getPackageById (createPackageHandler db st req authorId now false).2.1
      db.nextId = none ∧
    (∀ ext ∈ iconExts,
      ((createPackageHandler db st req authorId now false).2.2).iconAt
        (iconFileName db.nextId ext) = none) := by
  have hsa : saveAddon st db.nextId n buf now false =
      (Except.error "write failed", st) := by
    unfold saveAddon
    rw [hmagic]
    rfl
  have hrun : createPackageHandler db st req authorId now false =
      (CreateResult.internalError,
       DB.deletePackage
         (DB.createPackage db n (req.description.getD "") authorId "" ""
           (if truthy req.version then req.version.getD "" else "1.0.0")
           none (orUndef req.kofiUrl) (orUndef req.longDescription)
           (orUndef req.youtubeUrl) (orUndef req.discordUrl) catId).1
         db.nextId,
       deleteIcon st db.nextId) := by
    simp only [createPackageHandler, hname, hfile, hdup, hcat]
    rw [if_neg hne, if_neg (by simp [hvalid]), if_neg (by simp [hver]),
      if_neg (Nat.not_lt.mpr hsize), if_neg (by simp [hmagic]),
      if_neg (by simp [hkofi]), if_neg (by simp [hyt]), if_neg (by simp [hdc])]
    simp only [DB.createPackage]
    rw [if_neg hid]
    rw [hsa]
  have hnames : ∀ x ∈ db.packages, ¬((x.name == n) = true) :=
    fun x hx => List.find?_eq_none.mp hdup x hx
  rw [hrun]
  refine ⟨rfl, ?_, ?_, ?_⟩
  · unfold DB.getPackage DB.deletePackage DB.createPackage
    rw [List.find?_eq_none]
    intro x hx
    have hx' := List.mem_filter.mp hx
    rcases List.mem_append.mp hx'.1 with hmem | hmem
    · exact hnames x hmem
    · have hxeq : x.id = db.nextId := by
        simp only [List.mem_singleton] at hmem
        rw [hmem]
      have := hx'.2
      rw [Bool.not_eq_true'] at this
      simp [hxeq] at this
  · unfold DB.getPackageById DB.deletePackage DB.createPackage
    rw [List.find?_eq_none]
    intro x hx
    have hx' := List.mem_filter.mp hx
    have := hx'.2
    rw [Bool.not_eq_true'] at this
    simp only [this]
    exact Bool.false_ne_true
  · intro ext hext
    unfold Store.iconAt deleteIcon
    rw [Option.map_eq_none']
    rw [List.find?_eq_none]
    intro e he
    have he' := List.mem_filter.mp he
    have hany := he'.2
    rw [Bool.not_eq_true'] at hany
    rw [List.any_eq_false] at hany
    have := hany ext hext
    simp only [this]
    exact Bool.false_ne_true

/-- C1 witness: a valid request whose archive write is forced to fail on
a concrete one-package state. -/
theorem createPackage_rollback_on_write_failure_witness :
    DB.getPackage
        (createPackageHandler sampleDB ⟨[], []⟩
          ⟨some "Bar", none, none, none, none, none, none, none,
            some [0x50, 0x4b, 0x03, 0x04], none⟩ 1 1700000000000 false).2.1
        "Bar" = none ∧
    DB.getPackageById
        (createPackageHandler sampleDB ⟨[], []⟩
          ⟨some "Bar", none, none, none, none, none, none, none,
            some [0x50, 0x4b, 0x03, 0x04], none⟩ 1 1700000000000 false).2.1
        sampleDB.nextId = none :=
  ⟨(createPackage_rollback_on_write_failure sampleDB ⟨[], []⟩
      ⟨some "Bar", none, none, none, none, none, none, none,
        some [0x50, 0x4b, 0x03, 0x04], none⟩ 1 1700000000000 "Bar"
      [0x50, 0x4b, 0x03, 0x04] none rfl (by decide) (by decide) (by decide) rfl
      (by decide) (by decide) (by decide) (by decide) (by decide) (by decide)
      rfl (by decide)).2.1,
   (createPackage_rollback_on_write_failure sampleDB ⟨[], []⟩
      ⟨some "Bar", none, none, none, none, none, none, none,
        some [0x50, 0x4b, 0x03, 0x04], none⟩ 1 1700000000000 "Bar"
      [0x50, 0x4b, 0x03, 0x04] none rfl (by decide) (by decide) (by decide) rfl
      (by decide) (by decide) (by decide) (by decide) (by decide) (by decide)
      rfl (by decide)).2.2.1⟩

end BedPak
